import Mathlib

/-!
Verification of the Zero-Trust API Gateway core against its design notes.

The Go sources are embedded shallowly:

* pure helpers become Lean functions with the same names;
* stateful components (policy engine, audit logger, rate limiter) become
  explicit state-passing functions over structures mirroring the Go structs;
* machine word arithmetic (SHA-256) is `Nat` arithmetic reduced mod 2^32;
* Go `float64` quantities in the token bucket are embedded as rationals;
* fallible operations return `Option`, with `none`/`some err` for Go errors.
-/

set_option maxRecDepth 8192

namespace ZTGW

/-! ## SHA-256 (crypto/sha256 as used by internal/audit)

A byte-level implementation of FIPS 180-4 SHA-256 over `List Nat`
(each element a byte), with all word arithmetic on `Nat` mod 2^32. -/

def w32 : Nat := 4294967296

def add32 (a b : Nat) : Nat := (a + b) % w32

def rotr32 (n x : Nat) : Nat := ((x >>> n) ||| (x <<< (32 - n))) % w32

def ch32 (x y z : Nat) : Nat := (x &&& y) ^^^ ((x ^^^ 4294967295) &&& z)

def maj32 (x y z : Nat) : Nat := (x &&& y) ^^^ (x &&& z) ^^^ (y &&& z)

def bigSigma0 (x : Nat) : Nat := rotr32 2 x ^^^ rotr32 13 x ^^^ rotr32 22 x

def bigSigma1 (x : Nat) : Nat := rotr32 6 x ^^^ rotr32 11 x ^^^ rotr32 25 x

def smallSigma0 (x : Nat) : Nat := rotr32 7 x ^^^ rotr32 18 x ^^^ (x >>> 3)

def smallSigma1 (x : Nat) : Nat := rotr32 17 x ^^^ rotr32 19 x ^^^ (x >>> 10)

def shaK : List Nat :=
  [1116352408, 1899447441, 3049323471, 3921009573, 961987163, 1508970993,
   2453635748, 2870763221, 3624381080, 310598401, 607225278, 1426881987,
   1925078388, 2162078206, 2614888103, 3248222580, 3835390401, 4022224774,
   264347078, 604807628, 770255983, 1249150122, 1555081692, 1996064986,
   2554220882, 2821834349, 2952996808, 3210313671, 3336571891, 3584528711,
   113926993, 338241895, 666307205, 773529912, 1294757372, 1396182291,
   1695183700, 1986661051, 2177026350, 2456956037, 2730485921, 2820302411,
   3259730800, 3345764771, 3516065817, 3600352804, 4094571909, 275423344,
   430227734, 506948616, 659060556, 883997877, 958139571, 1322822218,
   1537002063, 1747873779, 1955562222, 2024104815, 2227730452, 2361852424,
   2428436474, 2756734187, 3204031479, 3329325298]

structure Hash8 where
  a : Nat
  b : Nat
  c : Nat
  d : Nat
  e : Nat
  f : Nat
  g : Nat
  h : Nat
deriving DecidableEq

def shaInit : Hash8 :=
  ⟨1779033703, 3144134277, 1013904242, 2773480762,
   1359893119, 2600822924, 528734635, 1541459225⟩

/-- SHA-256 message padding: append `0x80`, zero bytes until the length is
56 mod 64, then the message bit length as 8 big-endian bytes. -/
def padMessage (msg : List Nat) : List Nat :=
  let len := msg.length
  let bitLen := len * 8
  let zeros := (119 - len % 64) % 64
  msg ++ [0x80] ++ List.replicate zeros 0 ++
    [bitLen >>> 56 % 256, bitLen >>> 48 % 256, bitLen >>> 40 % 256, bitLen >>> 32 % 256,
     bitLen >>> 24 % 256, bitLen >>> 16 % 256, bitLen >>> 8 % 256, bitLen % 256]

/-- Split a byte list into 64-byte blocks.  The fuel argument (the list length)
keeps the recursion structural so that it reduces in the kernel. -/
def toBlocksFuel : Nat → List Nat → List (List Nat)
  | _, [] => []
  | 0, _ => []
  | fuel + 1, bs => bs.take 64 :: toBlocksFuel fuel (bs.drop 64)

def toBlocks (bs : List Nat) : List (List Nat) := toBlocksFuel bs.length bs

/-- Big-endian 32-bit words of a 64-byte block. -/
def toWords : List Nat → List Nat
  | b0 :: b1 :: b2 :: b3 :: rest =>
      (b0 <<< 24 ||| b1 <<< 16 ||| b2 <<< 8 ||| b3) :: toWords rest
  | _ => []

/-- Extend the 16-word message schedule to 64 words; `acc` holds the schedule
in reverse order. -/
def extendSchedule : List Nat → Nat → List Nat
  | acc, 0 => acc.reverse
  | acc, n + 1 =>
      let s1 := smallSigma1 (acc.getD 1 0)
      let s0 := smallSigma0 (acc.getD 14 0)
      let w := (s1 + acc.getD 6 0 + s0 + acc.getD 15 0) % w32
      extendSchedule (w :: acc) n

def compressRound (s : Hash8) : Nat × Nat → Hash8
  | (k, w) =>
    let t1 := (s.h + bigSigma1 s.e + ch32 s.e s.f s.g + k + w) % w32
    let t2 := (bigSigma0 s.a + maj32 s.a s.b s.c) % w32
    ⟨(t1 + t2) % w32, s.a, s.b, s.c, (s.d + t1) % w32, s.e, s.f, s.g⟩

def processBlock (h : Hash8) (block : List Nat) : Hash8 :=
  let ws := extendSchedule (toWords block).reverse 48
  let s := (shaK.zip ws).foldl compressRound h
  ⟨add32 h.a s.a, add32 h.b s.b, add32 h.c s.c, add32 h.d s.d,
   add32 h.e s.e, add32 h.f s.f, add32 h.g s.g, add32 h.h s.h⟩

def hexDigit (n : Nat) : Char :=
  if n < 10 then Char.ofNat (48 + n) else Char.ofNat (87 + n)

def word32Hex (x : Nat) : List Char :=
  [hexDigit (x >>> 28 % 16), hexDigit (x >>> 24 % 16), hexDigit (x >>> 20 % 16),
   hexDigit (x >>> 16 % 16), hexDigit (x >>> 12 % 16), hexDigit (x >>> 8 % 16),
   hexDigit (x >>> 4 % 16), hexDigit (x % 16)]

/-- Hex-encoded SHA-256 digest of a byte list
(`hex.EncodeToString(sha256.Sum(...))` in the Go sources). -/
def sha256Hex (msg : List Nat) : String :=
  let h := (toBlocks (padMessage msg)).foldl processBlock shaInit
  ⟨word32Hex h.a ++ word32Hex h.b ++ word32Hex h.c ++ word32Hex h.d ++
   word32Hex h.e ++ word32Hex h.f ++ word32Hex h.g ++ word32Hex h.h⟩

/-- UTF-8 encoding of one character (Go `[]byte(string)` conversion). -/
def charBytes (c : Char) : List Nat :=
  let n := c.toNat
  if n < 0x80 then [n]
  else if n < 0x800 then [0xc0 ||| n >>> 6, 0x80 ||| n &&& 0x3f]
  else if n < 0x10000 then [0xe0 ||| n >>> 12, 0x80 ||| (n >>> 6 &&& 0x3f), 0x80 ||| n &&& 0x3f]
  else [0xf0 ||| n >>> 18, 0x80 ||| (n >>> 12 &&& 0x3f), 0x80 ||| (n >>> 6 &&& 0x3f),
        0x80 ||| n &&& 0x3f]

/-- Byte content of a Go string. -/
def strBytes (s : String) : List Nat := (s.data.map charBytes).flatten

/-- `unicode.IsSpace`: the Unicode White_Space runes. -/
def isSpaceGo (c : Char) : Bool :=
  let n := c.toNat
  decide ((9 ≤ n ∧ n ≤ 13) ∨ n = 32 ∨ n = 133 ∨ n = 160 ∨ n = 5760 ∨
    (8192 ≤ n ∧ n ≤ 8202) ∨ n = 8232 ∨ n = 8233 ∨ n = 8239 ∨ n = 8287 ∨ n = 12288)

/-- Go `strings.TrimSpace`: drop White_Space runes from both ends. -/
def trimSpace (s : String) : String :=
  ⟨((s.data.dropWhile isSpaceGo).reverse.dropWhile isSpaceGo).reverse⟩

/-- Go `strings.HasPrefix` on the character lists of the two strings. -/
def strStartsWithList : List Char → List Char → Bool
  | _, [] => true
  | [], _ :: _ => false
  | c :: cs, p :: ps => c == p && strStartsWithList cs ps

def strStartsWith (s pre : String) : Bool := strStartsWithList s.data pre.data

namespace audit

/-- `audit.Entry` (internal/audit/logger.go).  The `timestamp` field holds the
RFC-3339-nanosecond UTC rendering of the Go `time.Time` value: that rendering
is both what `computeHash` consumes (`Format(time.RFC3339Nano)`) and what the
JSON round trip through the log file preserves. -/
structure Entry where
  timestamp : String
  method : String
  path : String
  decision : String
  reason : String
  prevHash : String
  hash : String
deriving DecidableEq

/-- `audit.computeHash`: SHA-256 over the byte concatenation of
timestamp, method, path, decision, reason and prev-hash (the `hash` field is
never an input). -/
def computeHash (e : Entry) : String :=
  sha256Hex (strBytes e.timestamp ++ strBytes e.method ++ strBytes e.path ++
    strBytes e.decision ++ strBytes e.reason ++ strBytes e.prevHash)

/-- `audit.Logger` state: the in-memory `lastHash` and the successfully
written file content (one entry per line). -/
structure Logger where
  lastHash : String
  file : List Entry
deriving DecidableEq

/-- `audit.NewLogger` on a fresh file: empty chain, empty `lastHash`. -/
def NewLogger : Logger := ⟨"", []⟩

/-- One call to `Logger.Log`.  `timestamp` stands for `time.Now().UTC()` as
rendered by RFC3339Nano, and `writeOk` models whether serialization and the
file append succeed (`Log` swallows failures and advances `lastHash` only on
success). -/
structure LogCall where
  timestamp : String
  method : String
  path : String
  decision : String
  reason : String
  writeOk : Bool

/-- The entry built by `Logger.Log`: `PrevHash := lastHash`, `Hash` computed
by `computeHash` over the other fields. -/
def mkEntry (lastHash : String) (c : LogCall) : Entry :=
  let base : Entry :=
    { timestamp := c.timestamp, method := c.method, path := c.path,
      decision := c.decision, reason := c.reason, prevHash := lastHash, hash := "" }
  { base with hash := computeHash base }

/-- `audit.Logger.Log`: build the entry with `PrevHash := lastHash`, set its
hash with `computeHash`, append it on a successful write and only then advance
`lastHash`; on a failed write the state is unchanged. -/
def Log (l : Logger) (c : LogCall) : Logger :=
  if c.writeOk then
    { lastHash := (mkEntry l.lastHash c).hash, file := l.file ++ [mkEntry l.lastHash c] }
  else l

def runLog (l : Logger) (cs : List LogCall) : Logger := cs.foldl Log l

/-- The hash-chain well-formedness of a list of entries, scanned from a given
previous hash: each entry must link to the previous hash and store its own
recomputed hash. -/
def chainFrom (prev : String) : List Entry → Bool
  | [] => true
  | e :: rest => e.prevHash == prev && e.hash == computeHash e && chainFrom e.hash rest

/-- Chain state after scanning a list of entries. -/
def chainEnd (prev : String) : List Entry → String
  | [] => prev
  | e :: rest => chainEnd e.hash rest

def dummyEntry : Entry := ⟨"", "", "", "", "", "", ""⟩

/-- The logger invariant: the file is a well-formed chain from the empty
sentinel and `lastHash` is the chain state after the whole file. -/
def GoodLogger (l : Logger) : Prop :=
  chainFrom "" l.file = true ∧ l.lastHash = chainEnd "" l.file

/-- One line of an audit file as seen by the verifier: either text that
`json.Unmarshal` decodes to an `Entry`, or a line it rejects. -/
inductive Line where
  | entry (e : Entry)
  | malformed
deriving DecidableEq

/-- The scanner loop of `audit.VerifyLogIntegrity`: carries the hash of the
previously accepted entry, requires each entry to link to it and to store its
own recomputed hash, and stops with an error message at the first mismatch. -/
def verifyFrom (prev : String) : List Line → Option String
  | [] => none
  | Line.malformed :: _ => some "invalid log entry format"
  | Line.entry e :: rest =>
    if e.prevHash ≠ prev then some "hash chain broken (prev hash mismatch)"
    else if e.hash ≠ computeHash e then some "hash mismatch (entry tampered)"
    else verifyFrom e.hash rest

/-- `audit.VerifyLogIntegrity` on the parsed lines of an audit file
(`none` = file accepted). -/
def VerifyLogIntegrity (lines : List Line) : Option String := verifyFrom "" lines

/-- A concrete sequence of successful `Log` calls, used to instantiate the
audit theorems. -/
def auditCalls : List LogCall :=
  [⟨"2025-01-01T00:00:00.000000001Z", "GET", "/a", "ALLOW", "all checks passed", true⟩,
   ⟨"2025-01-01T00:00:00.000000002Z", "POST", "/b", "DENY", "Forbidden", true⟩]

/-- First and second entries of the file produced by `auditCalls`. -/
def entry0 : Entry := (runLog NewLogger auditCalls).file.getD 0 dummyEntry

def entry1 : Entry := (runLog NewLogger auditCalls).file.getD 1 dummyEntry

/-- `entry0` with one content field changed (a tampered reason). -/
def entry0Tampered : Entry := { entry0 with reason := "tampered" }

/-- A forged entry that correctly extends the chain produced by `auditCalls`:
its `prev_hash` is the chain head and its `hash` is honestly recomputed. -/
def forgedTail : Entry :=
  let base : Entry :=
    { timestamp := "2025-01-01T00:00:00.000000003Z", method := "GET", path := "/c",
      decision := "ALLOW", reason := "all checks passed",
      prevHash := (runLog NewLogger auditCalls).lastHash, hash := "" }
  { base with hash := computeHash base }

end audit

namespace auth

/-- `auth.AuthType`: how the request was authenticated. -/
inductive AuthType where
  | jwt
  | api_key
deriving DecidableEq

/-- `auth.Identity`: the authenticated caller (internal/auth/context.go). -/
structure Identity where
  type : AuthType
  subject : String
  roles : List String
  issuer : String
  audience : String
deriving DecidableEq
end auth

namespace auth

/-- A JSON value as `encoding/json` decodes JWT claims (`MapClaims` values
are `interface\x7b\x7d`); only the shapes the middleware inspects are
distinguished. -/
inductive JVal where
  | jstr (s : String)
  | jnum (q : ℚ)
  | jbool (b : Bool)
  | jnull
  | jarr (xs : List JVal)

/-- The claims the middleware examines from `jwt.MapClaims` (an absent key
yields `none`, as `claims["k"]` yields an untyped nil). -/
structure MapClaims where
  iss : Option JVal
  aud : Option JVal
  exp : Option JVal
  nbf : Option JVal
  sub : Option JVal
  roles : Option JVal

/-- A structurally well-formed JWT as `jwt.Parse` sees it: its header
algorithm, whether its signature verifies under the configured public key,
and its claims. -/
structure Token where
  alg : String
  sigValid : Bool
  claims : MapClaims

/-- `auth.JWTConfig` (the public key is abstracted into `Token.sigValid`). -/
structure JWTConfig where
  issuer : String
  audience : String

/-- Go interface equality `claims["iss"] == cfg.Issuer`: true only for a
string claim equal to the given string. -/
def jvalEqStr : Option JVal → String → Bool
  | some (JVal.jstr s), t => s == t
  | _, _ => false

/-- Go type assertion `.(string)`. -/
def jvalAsString : Option JVal → Option String
  | some (JVal.jstr s) => some s
  | _ => none

/-- Go type assertion `.(float64)` (JSON numbers decode to float64). -/
def jvalAsNumber : Option JVal → Option ℚ
  | some (JVal.jnum q) => some q
  | _ => none

/-- `auth.extractRoles`: the string elements of the `roles` array, in order;
a missing or non-array claim yields no roles. -/
def extractRoles (claims : MapClaims) : List String :=
  match claims.roles with
  | some (JVal.jarr xs) =>
      xs.filterMap fun x =>
        match x with
        | JVal.jstr s => some s
        | _ => none
  | _ => []

/-- Go `int64(f)` on a float64: truncation toward zero. -/
def truncRat (q : ℚ) : Int := Int.tdiv q.num (q.den : Int)

/-- The `exp` leg of the registered-claims validation `jwt/v5` runs inside
`jwt.Parse` (`Validator.Validate`, zero leeway): `MapClaims.parseNumericDate`
treats an absent `exp` — or a float64 zero — as no claim and errors on any
other non-float64 value; otherwise the token is valid only while the current
instant is strictly before `exp` (`cmp.Before(exp)`, full time precision). -/
def v5ExpInvalid (now : ℚ) (claims : MapClaims) : Bool :=
  match claims.exp with
  | none => false
  | some (JVal.jnum e) => if e = 0 then false else decide (e ≤ now)
  | some _ => true

/-- The `nbf` leg of the same validation: a present, nonzero float64 `nbf`
must not be in the future (`!cmp.Before(nbf)`); any other non-float64 value
errors. -/
def v5NbfInvalid (now : ℚ) (claims : MapClaims) : Bool :=
  match claims.nbf with
  | none => false
  | some (JVal.jnum n) => if n = 0 then false else decide (now < n)
  | some _ => true

/-- The whole registered-claims validation `jwt/v5` performs inside
`jwt.Parse` with default parser options: `exp` and `nbf` (issuer, audience
and issued-at are only verified when configured on the parser, which they
are not here). -/
def v5ClaimsInvalid (now : ℚ) (claims : MapClaims) : Bool :=
  v5ExpInvalid now claims || v5NbfInvalid now claims

/-- Go `time.Now().Unix()` at the instant `now`: whole seconds since the
epoch, rounded toward minus infinity. -/
def unixSec (now : ℚ) : Int := ⌊now⌋

/-- Go `strings.SplitN(s, " ", 2)`: split at the first space, keeping the
remainder (later spaces included) as the second piece. -/
def splitN2SpaceAux : List Char → List Char → List String
  | acc, [] => [⟨acc.reverse⟩]
  | acc, c :: cs => if c == ' ' then [⟨acc.reverse⟩, ⟨cs⟩] else splitN2SpaceAux (c :: acc) cs

def splitN2Space (s : String) : List String := splitN2SpaceAux [] s.data

/-- Outcome of the bearer-token authenticator on one request: forward
(optionally attaching an identity to the context) or reject. -/
inductive JWTOutcome where
  | forwarded (ident : Option Identity)
  | rejected (status : Nat) (body : String)
deriving DecidableEq

/-- `auth.JWTMiddleware` on one request at the instant `now` (a rational:
full time precision, with `time.Now().Unix()` its floor).  `parse` stands
for the structural parsing step of `jwt.Parse` (`none` for a malformed
token); the keyfunc algorithm check, the signature verification, and the
library's registered-claims validation are the first three rejections, all
reported as "invalid token" as in the Go code (`err != nil ||
!token.Valid`), followed by the middleware's own claim checks in source
order. -/
def JWTMiddleware (cfg : JWTConfig) (parse : String → Option Token) (now : ℚ)
    (path : String) (authHeader : String) : JWTOutcome :=
  if path == "/health" then JWTOutcome.forwarded none
  else if authHeader == "" then JWTOutcome.rejected 401 "missing Authorization header"
  else
    match splitN2Space authHeader with
    | [bearer, tokenStr] =>
        if bearer != "Bearer" then JWTOutcome.rejected 401 "invalid Authorization header format"
        else
          match parse tokenStr with
          | none => JWTOutcome.rejected 401 "invalid token"
          | some tok =>
              if tok.alg != "RS256" then JWTOutcome.rejected 401 "invalid token"
              else if ¬ tok.sigValid then JWTOutcome.rejected 401 "invalid token"
              else if v5ClaimsInvalid now tok.claims then JWTOutcome.rejected 401 "invalid token"
              else if ¬ jvalEqStr tok.claims.iss cfg.issuer then
                JWTOutcome.rejected 401 "invalid token issuer"
              else
                match jvalAsString tok.claims.aud with
                | none => JWTOutcome.rejected 401 "invalid token audience"
                | some aud =>
                    if aud != cfg.audience then
                      JWTOutcome.rejected 401 "invalid token audience"
                    else
                      match jvalAsNumber tok.claims.exp with
                      | none => JWTOutcome.rejected 401 "token expired"
                      | some expv =>
                          if unixSec now > truncRat expv then JWTOutcome.rejected 401 "token expired"
                          else
                            match jvalAsString tok.claims.sub with
                            | none => JWTOutcome.rejected 401 "token subject missing"
                            | some sub =>
                                if sub == "" then
                                  JWTOutcome.rejected 401 "token subject missing"
                                else
                                  JWTOutcome.forwarded (some
                                    { type := AuthType.jwt, subject := sub,
                                      roles := extractRoles tok.claims,
                                      issuer := cfg.issuer, audience := cfg.audience })
    | _ => JWTOutcome.rejected 401 "invalid Authorization header format"

/-- A concrete configuration, token and parser for the JWT witnesses. -/
def sampleCfg : JWTConfig := ⟨"iss1", "aud1"⟩

def sampleToken : Token :=
  { alg := "RS256", sigValid := true,
    claims := { iss := some (JVal.jstr "iss1"), aud := some (JVal.jstr "aud1"),
                exp := some (JVal.jnum 200), nbf := none,
                sub := some (JVal.jstr "alice"),
                roles := some (JVal.jarr [JVal.jstr "admin", JVal.jnum 3]) } }

def sampleParse : String → Option Token :=
  fun s => if s == "tok" then some sampleToken else none

end auth

namespace rbac

/-- `rbac.Policy` (method, path prefix to match, allowed roles). -/
structure Policy where
  method : String
  path : String
  roles : List String
deriving DecidableEq

/-- `rbac.PolicySet`. -/
structure PolicySet where
  policies : List Policy
deriving DecidableEq

/-- `rbac.hasAllowedRole`: the two role lists intersect. -/
def hasAllowedRole (userRoles allowedRoles : List String) : Bool :=
  userRoles.any fun ur => allowedRoles.any fun ar => ur == ar

/-- The observable outcome of one middleware handler on a request: delegate
to the next handler, or reject with a status and body. -/
inductive Outcome where
  | forwarded
  | rejected (status : Nat) (body : String)
deriving DecidableEq

/-- The policy loop of `RBACMiddleware`: skip rules whose method differs or
whose path is not a prefix of the request path; the first remaining rule
sharing a role forwards; a matching rule sharing no role does not stop the
scan. -/
def evalPolicies (roles : List String) (method path : String) : List Policy → Bool
  | [] => false
  | p :: rest =>
      if method ≠ p.method then evalPolicies roles method path rest
      else if ¬ strStartsWith path p.path then evalPolicies roles method path rest
      else if hasAllowedRole roles p.roles then true
      else evalPolicies roles method path rest

/-- `rbac.RBACMiddleware` on one request: `/health` bypasses, a request with
no identity in context is rejected 403, otherwise the policy scan decides and
a scan with no allowing rule is rejected 403. -/
def RBACMiddleware (ps : PolicySet) (method path : String)
    (ident : Option auth.Identity) : Outcome :=
  if path == "/health" then Outcome.forwarded
  else
    match ident with
    | none => Outcome.rejected 403 "access denied"
    | some ident =>
        if evalPolicies ident.roles method path ps.policies then Outcome.forwarded
        else Outcome.rejected 403 "access denied"

end rbac

namespace policy

/-- `policy.Rule` as decoded from the YAML file. -/
structure Rule where
  method : String
  path : String
  roles : List String
deriving DecidableEq

/-- `policy.PolicyFile`. -/
structure PolicyFile where
  policies : List Rule
deriving DecidableEq

/-- `policy.Engine`: the active rule set and the loaded flag. -/
structure Engine where
  policies : List Rule
  loaded : Bool
deriving DecidableEq

/-- `policy.NewEngine`: empty, not loaded (deny all). -/
def NewEngine : Engine := ⟨[], false⟩

/-- `policy.Engine.GetPolicies`: a snapshot of the current rules, empty when
not loaded. -/
def GetPolicies (e : Engine) : List Rule :=
  if e.loaded then e.policies else []

/-- `policy.Engine.invalidate`: clear the rules, mark not loaded. -/
def invalidate (_e : Engine) : Engine := ⟨[], false⟩

/-- The per-rule loop of `policy.validatePolicyFile`, carrying the index used
in error messages. -/
def validateRules : Nat → List Rule → Option String
  | _, [] => none
  | i, r :: rest =>
      if trimSpace r.method = "" then
        some ("policy[" ++ toString i ++ "]: method is required")
      else if trimSpace r.path = "" then
        some ("policy[" ++ toString i ++ "]: path is required")
      else if ¬ strStartsWith r.path "/" then
        some ("policy[" ++ toString i ++ "]: path must start with \x27/\x27")
      else if r.roles.length = 0 then
        some ("policy[" ++ toString i ++ "]: roles must not be empty")
      else if r.roles.any (fun role => trimSpace role == "") then
        some ("policy[" ++ toString i ++ "]: role names must not be empty")
      else validateRules (i + 1) rest

/-- `policy.validatePolicyFile`: an empty policy list is an error, and every
rule must pass the validation invariants. -/
def validatePolicyFile (pf : PolicyFile) : Option String :=
  if pf.policies.length = 0 then some "policy file contains no policies"
  else validateRules 0 pf.policies

/-- What the engine finds when it tries to load the policy file: the file is
unreadable, the YAML does not parse, or a `PolicyFile` was decoded. -/
inductive FileRead where
  | readErr
  | parseErr
  | parsed (pf : PolicyFile)
deriving DecidableEq

/-- `policy.Engine.LoadFromFile`: any read, parse or validation failure
invalidates the engine and reports the error; a fully validated file is
swapped in and the engine marked loaded. -/
def LoadFromFile (e : Engine) : FileRead → Engine × Option String
  | FileRead.readErr => (invalidate e, some "failed to read policy file")
  | FileRead.parseErr => (invalidate e, some "invalid YAML")
  | FileRead.parsed pf =>
      match validatePolicyFile pf with
      | some err => (invalidate e, some err)
      | none => ({ policies := pf.policies, loaded := true }, none)

end policy

namespace gateway

/-- `main.convertPolicyRulesToRBACPolicies`. -/
def convertPolicyRulesToRBACPolicies (rules : List policy.Rule) : List rbac.Policy :=
  rules.map fun r => ⟨r.method, r.path, r.roles⟩

/-- One tick of the `policy.Engine.Watch` goroutine: `os.Stat` fails
(invalidate), the mtime advanced (reload from the current file content), or
nothing changed. -/
inductive WatchEvent where
  | statErr
  | reload (input : policy.FileRead)
  | unchanged
deriving DecidableEq

def watchStep (e : policy.Engine) : WatchEvent → policy.Engine
  | WatchEvent.statErr => policy.invalidate e
  | WatchEvent.reload input => (policy.LoadFromFile e input).1
  | WatchEvent.unchanged => e

/-- The assembled gateway as wired in `main`: the live policy engine, plus
the rule set the RBAC middleware was constructed with. -/
structure Gateway where
  engine : policy.Engine
  rbacPolicies : rbac.PolicySet

/-- `main` startup: initial `LoadFromFile`, then the RBAC middleware is built
from a one-time `GetPolicies()` snapshot, before the watcher starts. -/
def gatewayInit (initialLoad : policy.FileRead) : Gateway :=
  let e1 := (policy.LoadFromFile policy.NewEngine initialLoad).1
  { engine := e1,
    rbacPolicies := ⟨convertPolicyRulesToRBACPolicies (policy.GetPolicies e1)⟩ }

/-- A watcher tick updates only the engine; the RBAC middleware keeps the
rule set it captured at startup. -/
def gatewayStep (g : Gateway) (ev : WatchEvent) : Gateway :=
  { g with engine := watchStep g.engine ev }

def gatewayRun (g : Gateway) (evs : List WatchEvent) : Gateway := evs.foldl gatewayStep g

/-- The RBAC decision made by the assembled gateway for a request. -/
def gatewayRBACDecide (g : Gateway) (method path : String)
    (ident : Option auth.Identity) : rbac.Outcome :=
  rbac.RBACMiddleware g.rbacPolicies method path ident

/-- Go `net/http.StatusText`. -/
def StatusText (code : Nat) : String :=
  match code with
  | 100 => "Continue"
  | 101 => "Switching Protocols"
  | 102 => "Processing"
  | 103 => "Early Hints"
  | 200 => "OK"
  | 201 => "Created"
  | 202 => "Accepted"
  | 203 => "Non-Authoritative Information"
  | 204 => "No Content"
  | 205 => "Reset Content"
  | 206 => "Partial Content"
  | 207 => "Multi-Status"
  | 208 => "Already Reported"
  | 226 => "IM Used"
  | 300 => "Multiple Choices"
  | 301 => "Moved Permanently"
  | 302 => "Found"
  | 303 => "See Other"
  | 304 => "Not Modified"
  | 305 => "Use Proxy"
  | 307 => "Temporary Redirect"
  | 308 => "Permanent Redirect"
  | 400 => "Bad Request"
  | 401 => "Unauthorized"
  | 402 => "Payment Required"
  | 403 => "Forbidden"
  | 404 => "Not Found"
  | 405 => "Method Not Allowed"
  | 406 => "Not Acceptable"
  | 407 => "Proxy Authentication Required"
  | 408 => "Request Timeout"
  | 409 => "Conflict"
  | 410 => "Gone"
  | 411 => "Length Required"
  | 412 => "Precondition Failed"
  | 413 => "Request Entity Too Large"
  | 414 => "Request URI Too Long"
  | 415 => "Unsupported Media Type"
  | 416 => "Requested Range Not Satisfiable"
  | 417 => "Expectation Failed"
  | 418 => "I\x27m a teapot"
  | 421 => "Misdirected Request"
  | 422 => "Unprocessable Entity"
  | 423 => "Locked"
  | 424 => "Failed Dependency"
  | 425 => "Too Early"
  | 426 => "Upgrade Required"
  | 428 => "Precondition Required"
  | 429 => "Too Many Requests"
  | 431 => "Request Header Fields Too Large"
  | 451 => "Unavailable For Legal Reasons"
  | 500 => "Internal Server Error"
  | 501 => "Not Implemented"
  | 502 => "Bad Gateway"
  | 503 => "Service Unavailable"
  | 504 => "Gateway Timeout"
  | 505 => "HTTP Version Not Supported"
  | 506 => "Variant Also Negotiates"
  | 507 => "Insufficient Storage"
  | 508 => "Loop Detected"
  | 510 => "Not Extended"
  | 511 => "Network Authentication Required"
  | _ => ""

/-- `dashboard.StatsCollector` counters (allow and deny). -/
structure Stats where
  allow : Nat
  deny : Nat
deriving DecidableEq

/-- The `responseRecorder`: initialized to 200, overwritten by each
`WriteHeader` call of the inner chain; `recordedStatus` is its final value
given the statuses the inner chain wrote. -/
def recordedStatus (innerWrites : List Nat) : Nat := (innerWrites.getLast?).getD 200

/-- `main.auditMiddleware` observing one request: derive decision and reason
from the recorded status, bump the matching stats counter, and append one
audit entry (`writeOk` models audit logger health as in `Log`). -/
def auditMiddleware (stats : Stats) (logger : audit.Logger)
    (method path timestamp : String) (innerWrites : List Nat) (writeOk : Bool) :
    Stats × audit.Logger :=
  let status := recordedStatus innerWrites
  let decision := if status ≥ 400 then "DENY" else "ALLOW"
  let reason := if status ≥ 400 then StatusText status else "all checks passed"
  let stats2 := if decision == "ALLOW" then { stats with allow := stats.allow + 1 }
    else { stats with deny := stats.deny + 1 }
  (stats2, audit.Log logger ⟨timestamp, method, path, decision, reason, writeOk⟩)

end gateway

namespace ratelimit

/-- Rate-limit configuration constants (internal/ratelimit). -/
def IPBucketCapacity : Int := 20

def IPRefillPerSecond : Int := 5

def UserBucketCapacity : Int := 40

def UserRefillPerSecond : Int := 10

def FallbackCapacity : Int := 2

def FallbackRefillPS : Int := 1

/-- `ratelimit.bucket`.  Go stores `tokens` and `refillPS` as `float64` and
`last` as a `time.Time`; they are embedded as rationals (times in seconds),
making the refill arithmetic exact. -/
structure Bucket where
  capacity : Int
  tokens : ℚ
  refillPS : ℚ
  last : ℚ
deriving DecidableEq

/-- `ratelimit.newBucket`: a fresh bucket starts with `tokens = capacity`. -/
def newBucket (capacity refillPS : Int) (now : ℚ) : Bucket :=
  { capacity := capacity, tokens := (capacity : ℚ), refillPS := (refillPS : ℚ), last := now }

/-- `ratelimit.bucket.allow`: refill by the elapsed time, clamp at capacity,
set `last := now`; deny if fewer than one token remains, otherwise spend one
token and allow. -/
def Bucket.allow (b : Bucket) (now : ℚ) : Bucket × Bool :=
  let elapsed := now - b.last
  let t1 := b.tokens + elapsed * b.refillPS
  let t2 := if t1 > (b.capacity : ℚ) then (b.capacity : ℚ) else t1
  if t2 < 1 then ({ b with tokens := t2, last := now }, false)
  else ({ b with tokens := t2 - 1, last := now }, true)

/-- The refilled (clamped) token count of one `allow` step. -/
def refilled (b : Bucket) (now : ℚ) : ℚ :=
  min (b.capacity : ℚ) (b.tokens + (now - b.last) * b.refillPS)

/-- Run a sequence of request timestamps against one bucket and count the
allowed requests whose timestamp lies in the window `[lo, hi]`. -/
def countAllowedWin (b : Bucket) (lo hi : ℚ) : List ℚ → Nat
  | [] => 0
  | t :: ts =>
      (if (b.allow t).2 = true ∧ lo ≤ t ∧ t ≤ hi then 1 else 0) +
        countAllowedWin (b.allow t).1 lo hi ts

end ratelimit

namespace auth

/-- `auth.APIKey` (internal/auth/apikey.go). -/
structure APIKey where
  id : String
  key : String
  roles : List String
deriving DecidableEq

end auth

namespace gateway

/-- The request-context keys used by the secured chain: the auth package's
private `identityKey` and the rate limiter's own `UserIDKey` (distinct typed
keys, so they can never collide). -/
inductive CtxKey where
  | authIdentity
  | limiterUserID
deriving DecidableEq

inductive CtxVal where
  | identity (ident : auth.Identity)
  | str (s : String)
deriving DecidableEq

/-- A request context: `context.WithValue` wraps, `Value` finds the most
recently added binding for a key. -/
def Ctx := List (CtxKey × CtxVal)

def withValue (ctx : Ctx) (k : CtxKey) (v : CtxVal) : Ctx := (k, v) :: ctx

def ctxValue (ctx : Ctx) (k : CtxKey) : Option CtxVal :=
  match ctx.find? (fun p => decide (p.1 = k)) with
  | some p => some p.2
  | none => none

/-- `ctx.Value(UserIDKey).(string)` in `safeAllow`. -/
def ctxUserID (ctx : Ctx) : Option String :=
  match ctxValue ctx CtxKey.limiterUserID with
  | some (CtxVal.str s) => some s
  | _ => none

/-- `auth.FromContext`. -/
def ctxIdentity (ctx : Ctx) : Option auth.Identity :=
  match ctxValue ctx CtxKey.authIdentity with
  | some (CtxVal.identity ident) => some ident
  | _ => none

/-- `ratelimit.Limiter` state: the two keyed bucket maps, plus the
package-global fallback bucket. -/
structure LimiterState where
  ipBuckets : List (String × ratelimit.Bucket)
  userBuckets : List (String × ratelimit.Bucket)
  fallback : ratelimit.Bucket

/-- `ratelimit.NewLimiter`: empty maps (the fallback bucket is global and
given by its creation-time state). -/
def NewLimiter (fallbackInit : ratelimit.Bucket) : LimiterState := ⟨[], [], fallbackInit⟩

def getAssoc (m : List (String × ratelimit.Bucket)) (k : String) : Option ratelimit.Bucket :=
  match m.find? (fun p => p.1 == k) with
  | some p => some p.2
  | none => none

def setAssoc (m : List (String × ratelimit.Bucket)) (k : String) (b : ratelimit.Bucket) :
    List (String × ratelimit.Bucket) :=
  match m with
  | [] => [(k, b)]
  | (k2, b2) :: rest => if k2 == k then (k2, b) :: rest else (k2, b2) :: setAssoc rest k b

/-- `ratelimit.Limiter.safeAllow` on the non-panicking path: an
unparsable remote address falls through to the fallback bucket; otherwise
the IP bucket (created on demand, always enforced) decides first, and the
user bucket is consulted only when the context carries a non-empty string
under `UserIDKey`. -/
def safeAllow (l : LimiterState) (ctx : Ctx) (remoteIP : Option String) (now : ℚ) :
    LimiterState × Bool :=
  match remoteIP with
  | none =>
      let r := l.fallback.allow now
      ({ l with fallback := r.1 }, r.2)
  | some ip =>
      let ipBucket := (getAssoc l.ipBuckets ip).getD
        (ratelimit.newBucket ratelimit.IPBucketCapacity ratelimit.IPRefillPerSecond now)
      let r := ipBucket.allow now
      let l2 := { l with ipBuckets := setAssoc l.ipBuckets ip r.1 }
      if r.2 = false then (l2, false)
      else
        match ctxUserID ctx with
        | some uid =>
            if uid ≠ "" then
              let userBucket := (getAssoc l2.userBuckets uid).getD
                (ratelimit.newBucket ratelimit.UserBucketCapacity
                  ratelimit.UserRefillPerSecond now)
              let r2 := userBucket.allow now
              ({ l2 with userBuckets := setAssoc l2.userBuckets uid r2.1 }, r2.2)
            else (l2, true)
        | none => (l2, true)

/-- `ratelimit.Limiter.Stats`: counts of tracked IP and user buckets
(served as `ip_buckets` and `user_buckets` on the dashboard). -/
def LimiterStats (l : LimiterState) : Nat × Nat :=
  (l.ipBuckets.length, l.userBuckets.length)

/-- An inbound request as the secured chain sees it.  `remoteIP` is
`extractIP(RemoteAddr)` (`none` when `net.SplitHostPort` fails), `now` the
clock reading for the limiter. -/
structure Request where
  method : String
  path : String
  headers : List (String × String)
  contentLength : Int
  bodyLen : Nat
  remoteIP : Option String
  now : ℚ

def headerGet (headers : List (String × String)) (name : String) : String :=
  match headers.find? (fun p => p.1 == name) with
  | some p => p.2
  | none => ""

/-- `middleware` package constants. -/
def AllowedContentTypes : List String := ["application/json", "text/plain"]

def RequiredHeaders : List String := ["User-Agent"]

def MaxRequestBodyBytes : Nat := 1048576

def isAllowedContentType (ct : String) : Bool :=
  if ct == "" then false
  else AllowedContentTypes.any fun allowed => strStartsWith ct allowed

def findMissingHeader (headers : List (String × String)) : List String → Option String
  | [] => none
  | h :: rest =>
      if trimSpace (headerGet headers h) == "" then some h
      else findMissingHeader headers rest

/-- `middleware.ValidateRequestMiddleware` as a decision: required headers,
content-type allow-list when a body is declared, and the body-size cap. -/
def validateRequest (req : Request) : Option (Nat × String) :=
  match findMissingHeader req.headers RequiredHeaders with
  | some h => some (400, "missing required header: " ++ h)
  | none =>
      if req.contentLength > 0 ∧
          ¬ isAllowedContentType (headerGet req.headers "Content-Type") then
        some (400, "invalid Content-Type")
      else if req.bodyLen > MaxRequestBodyBytes then
        some (400, "failed to read request body")
      else none

/-- What one chain stage does with a request: hand the (possibly extended)
context to the next stage, or write a status. -/
inductive StageResult where
  | pass (ctx : Ctx)
  | reject (status : Nat) (body : String)

def lookupStore (store : List (String × auth.APIKey)) (k : String) : Option auth.APIKey :=
  match store.find? (fun p => p.1 == k) with
  | some p => some p.2
  | none => none

/-- `auth.APIKeyMiddleware` on one request (as wired in `main` with the demo
`MapStore`): `/health` bypasses; a missing key, an unknown key, or a failed
constant-time comparison is 401; otherwise the identity is attached under the
auth package's context key. -/
def APIKeyMiddleware (store : List (String × auth.APIKey)) (req : Request)
    (ctx : Ctx) : StageResult :=
  if req.path == "/health" then StageResult.pass ctx
  else
    let key := headerGet req.headers "X-API-Key"
    if key == "" then StageResult.reject 401 "missing API key"
    else
      match lookupStore store key with
      | none => StageResult.reject 401 "invalid API key"
      | some record =>
          if ¬ (key == record.key) then StageResult.reject 401 "invalid API key"
          else
            StageResult.pass (withValue ctx CtxKey.authIdentity
              (CtxVal.identity ⟨auth.AuthType.api_key, record.id, record.roles, "", ""⟩))

/-- The RBAC stage: the decision of `rbac.RBACMiddleware` on the identity
found in the context; on forward the context is passed unchanged. -/
def rbacStage (ps : rbac.PolicySet) (req : Request) (ctx : Ctx) : StageResult :=
  match rbac.RBACMiddleware ps req.method req.path (ctxIdentity ctx) with
  | rbac.Outcome.forwarded => StageResult.pass ctx
  | rbac.Outcome.rejected st b => StageResult.reject st b

/-- The secured chain exactly as composed in `main`:
validate → API-key auth → RBAC → rate limit → proxy (200 on success).
The request enters with the empty base context. -/
def securedChain (store : List (String × auth.APIKey)) (ps : rbac.PolicySet)
    (ls : LimiterState) (req : Request) : LimiterState × Nat :=
  match validateRequest req with
  | some (st, _) => (ls, st)
  | none =>
      match APIKeyMiddleware store req [] with
      | StageResult.reject st _ => (ls, st)
      | StageResult.pass ctx1 =>
          match rbacStage ps req ctx1 with
          | StageResult.reject st _ => (ls, st)
          | StageResult.pass ctx2 =>
              let r := safeAllow ls ctx2 req.remoteIP req.now
              if r.2 then (r.1, 200) else (r.1, 429)

def processRequests (store : List (String × auth.APIKey)) (ps : rbac.PolicySet) :
    LimiterState → List Request → LimiterState
  | ls, [] => ls
  | ls, req :: rest => processRequests store ps (securedChain store ps ls req).1 rest

end gateway

/-! ## Theorems -/

/-- FIPS 180-4 test vector, as a sanity check of the SHA-256 embedding. -/
theorem sha256Hex_abc :
    sha256Hex (strBytes "abc") =
      "ba7816bf8f01cfea414140de5dae2223b00361a396177a9cb410ff61f20015ad" := by decide

namespace audit

theorem computeHash_sethash (e : Entry) (h : String) :
    computeHash { e with hash := h } = computeHash e := rfl

theorem chainEnd_append (prev : String) (l1 l2 : List Entry) :
    chainEnd prev (l1 ++ l2) = chainEnd (chainEnd prev l1) l2 := by
  induction l1 generalizing prev with
  | nil => rfl
  | cons e rest ih => simpa [chainEnd] using ih e.hash

theorem chainFrom_append (prev : String) (l1 l2 : List Entry) :
    chainFrom prev (l1 ++ l2) =
      (chainFrom prev l1 && chainFrom (chainEnd prev l1) l2) := by
  induction l1 generalizing prev with
  | nil => simp [chainFrom, chainEnd]
  | cons e rest ih =>
      simp only [List.cons_append, chainFrom, chainEnd, List.append_eq, ih, Bool.and_assoc]

theorem goodLogger_new : GoodLogger NewLogger := ⟨rfl, rfl⟩

theorem goodLogger_log (l : Logger) (c : LogCall) (h : GoodLogger l) :
    GoodLogger (Log l c) := by
  obtain ⟨hchain, hlast⟩ := h
  cases hw : c.writeOk with
  | false => simpa [Log, hw] using ⟨hchain, hlast⟩
  | true =>
      constructor
      · show chainFrom "" (Log l c).file = true
        simp only [Log, hw, if_true]
        rw [chainFrom_append, hchain, Bool.true_and, ← hlast]
        simp only [chainFrom, Bool.and_eq_true, beq_iff_eq]
        exact ⟨⟨rfl, rfl⟩, trivial⟩
      · show (Log l c).lastHash = chainEnd "" (Log l c).file
        simp only [Log, hw, if_true]
        rw [chainEnd_append, ← hlast]
        rfl

theorem goodLogger_run (l : Logger) (cs : List LogCall) (h : GoodLogger l) :
    GoodLogger (runLog l cs) := by
  induction cs generalizing l with
  | nil => exact h
  | cons c rest ih => exact ih _ (goodLogger_log l c h)

/-- Pointwise reading of a well-formed chain: every entry stores its
recomputed hash and links to the hash of the entry just before it. -/
theorem chainFrom_getD (prev : String) (es : List Entry)
    (h : chainFrom prev es = true) (i : Nat) (hi : i < es.length) :
    (es.getD i dummyEntry).hash = computeHash (es.getD i dummyEntry) ∧
      (es.getD i dummyEntry).prevHash =
        (if i = 0 then prev else (es.getD (i - 1) dummyEntry).hash) := by
  induction es generalizing prev i with
  | nil => simp at hi
  | cons e rest ih =>
      simp only [chainFrom, Bool.and_eq_true, beq_iff_eq] at h
      obtain ⟨⟨hprev, hhash⟩, hrest⟩ := h
      cases i with
      | zero => simp [hhash, hprev]
      | succ j =>
          have hj : j < rest.length := by simpa using hi
          have := ih e.hash hrest j hj
          cases j with
          | zero =>
              simpa [List.getD_cons_succ, List.getD_cons_zero] using this
          | succ k =>
              simpa [List.getD_cons_succ] using this

/-- Scanning a valid chain of entries succeeds and leaves the scanner in the
chain-end state for the remaining lines. -/
theorem verifyFrom_entries_append (prev : String) (es : List Entry) (rest : List Line)
    (h : chainFrom prev es = true) :
    verifyFrom prev (es.map Line.entry ++ rest) = verifyFrom (chainEnd prev es) rest := by
  induction es generalizing prev with
  | nil => rfl
  | cons e tail ih =>
      simp only [chainFrom, Bool.and_eq_true, beq_iff_eq] at h
      obtain ⟨⟨hprev, hhash⟩, hrest⟩ := h
      simp only [List.map_cons, List.cons_append, verifyFrom, chainEnd]
      rw [if_neg (by simp [hprev]), if_neg (by simp [hhash])]
      exact ih e.hash hrest

/-- An entry that does not link to the scanner state, or does not store its
recomputed hash, makes the scanner fail. -/
theorem verifyFrom_reject_head (prev : String) (e : Entry) (rest : List Line)
    (h : e.prevHash ≠ prev ∨ e.hash ≠ computeHash e) :
    ∃ msg, verifyFrom prev (Line.entry e :: rest) = some msg := by
  by_cases h1 : e.prevHash = prev
  · have h2 : e.hash ≠ computeHash e := h.resolve_left (by simp [h1])
    refine ⟨"hash mismatch (entry tampered)", ?_⟩
    simp only [verifyFrom]
    rw [if_neg (by simp [h1]), if_pos h2]
  · refine ⟨"hash chain broken (prev hash mismatch)", ?_⟩
    simp only [verifyFrom]
    rw [if_pos h1]

end audit

/-- C4: every audit entry produced by `Log` satisfies the chain invariant:
its `hash` field is the hex-encoded SHA-256 of the byte concatenation of the
entry's timestamp (rendered RFC-3339 with nanosecond precision in UTC),
method, path, decision, reason and `prev_hash` (which is what
`audit.computeHash` computes), and its `prev_hash` equals the hash of the
immediately preceding successfully written entry, the empty string for the
first entry. -/
theorem claim_C4_audit_chain (cs : List audit.LogCall) (i : Nat)
    (hi : i < (audit.runLog audit.NewLogger cs).file.length) :
    let file := (audit.runLog audit.NewLogger cs).file
    let e := file.getD i audit.dummyEntry
    e.hash = audit.computeHash e ∧
      e.prevHash = (if i = 0 then "" else (file.getD (i - 1) audit.dummyEntry).hash) := by
  intro file e
  have hg := audit.goodLogger_run audit.NewLogger cs audit.goodLogger_new
  exact audit.chainFrom_getD "" file hg.1 i hi

/-- Witness for C4 at a concrete two-call log. -/
theorem claim_C4_audit_chain_witness :
    1 < (audit.runLog audit.NewLogger audit.auditCalls).file.length ∧
      (let file := (audit.runLog audit.NewLogger audit.auditCalls).file
       let e := file.getD 1 audit.dummyEntry
       e.hash = audit.computeHash e ∧
         e.prevHash = (if 1 = 0 then "" else (file.getD (1 - 1) audit.dummyEntry).hash)) :=
  ⟨by decide, claim_C4_audit_chain audit.auditCalls 1 (by decide)⟩

/-- C5 as frozen is false: inserting an extra, correctly chained line at the
end of a produced audit file is accepted by `VerifyLogIntegrity` (the chain
has no external anchor, so honest extension is undetectable).  Concretely:
the two-entry file produced by `auditCalls`, extended with the well-formed
`forgedTail` line, verifies with no error. -/
theorem claim_C5_counterexample :
    (audit.runLog audit.NewLogger audit.auditCalls).file.length = 2 ∧
      audit.VerifyLogIntegrity
          ((audit.runLog audit.NewLogger audit.auditCalls).file.map audit.Line.entry ++
            [audit.Line.entry audit.forgedTail]) = none := by
  exact ⟨by decide, by decide⟩

/-- C5 amended: a produced audit file always verifies; replacing an entry is
rejected whenever the replacement alters the `prev_hash` field or fails to
store its own recomputed hash; swapping two entries is rejected whenever the
two entries carry distinct `prev_hash` fields; and inserting an extra line in
front of an existing entry is rejected unless the inserted line is an entry
that exactly replays the chain state at that point (prev-hash link, stored
hash and recomputed hash all matching).  Insertion at the very end of the
file is excluded (see the counterexample). -/
theorem claim_C5_verifier_amended :
    (∀ cs : List audit.LogCall,
        audit.VerifyLogIntegrity
          ((audit.runLog audit.NewLogger cs).file.map audit.Line.entry) = none) ∧
    (∀ (cs : List audit.LogCall) (pre : List audit.Entry) (e e2 : audit.Entry)
        (post : List audit.Entry),
        (audit.runLog audit.NewLogger cs).file = pre ++ e :: post →
        e2.prevHash ≠ e.prevHash ∨ e2.hash ≠ audit.computeHash e2 →
        ∃ msg, audit.VerifyLogIntegrity
            ((pre ++ e2 :: post).map audit.Line.entry) = some msg) ∧
    (∀ (cs : List audit.LogCall) (pre : List audit.Entry) (a : audit.Entry)
        (mid : List audit.Entry) (b : audit.Entry) (post : List audit.Entry),
        (audit.runLog audit.NewLogger cs).file = pre ++ a :: (mid ++ b :: post) →
        b.prevHash ≠ a.prevHash →
        ∃ msg, audit.VerifyLogIntegrity
            ((pre ++ b :: (mid ++ a :: post)).map audit.Line.entry) = some msg) ∧
    (∀ (cs : List audit.LogCall) (pre : List audit.Entry) (line : audit.Line)
        (post : List audit.Entry),
        (audit.runLog audit.NewLogger cs).file = pre ++ post →
        post ≠ [] →
        (∀ e2 : audit.Entry, line = audit.Line.entry e2 →
            e2.prevHash ≠ (post.headD audit.dummyEntry).prevHash ∨
            e2.hash ≠ audit.computeHash e2 ∨
            e2.hash ≠ (post.headD audit.dummyEntry).prevHash) →
        ∃ msg, audit.VerifyLogIntegrity
            (pre.map audit.Line.entry ++ line :: post.map audit.Line.entry) = some msg) := by
  refine ⟨?accept, ?replace, ?swap, ?insert⟩
  case accept =>
    intro cs
    have hg := audit.goodLogger_run audit.NewLogger cs audit.goodLogger_new
    have := audit.verifyFrom_entries_append "" (audit.runLog audit.NewLogger cs).file [] hg.1
    simpa [audit.VerifyLogIntegrity, audit.verifyFrom] using this
  case replace =>
    intro cs pre e e2 post hfile hbad
    have hg := audit.goodLogger_run audit.NewLogger cs audit.goodLogger_new
    have hchain : audit.chainFrom "" (pre ++ e :: post) = true := hfile ▸ hg.1
    rw [audit.chainFrom_append, Bool.and_eq_true] at hchain
    obtain ⟨hpre, htail⟩ := hchain
    simp only [audit.chainFrom, Bool.and_eq_true, beq_iff_eq] at htail
    obtain ⟨⟨heprev, -⟩, -⟩ := htail
    rw [List.map_append, List.map_cons]
    unfold audit.VerifyLogIntegrity
    rw [audit.verifyFrom_entries_append "" pre _ hpre]
    exact audit.verifyFrom_reject_head _ e2 _ (by rw [heprev] at hbad; exact hbad)
  case swap =>
    intro cs pre a mid b post hfile hbad
    have hg := audit.goodLogger_run audit.NewLogger cs audit.goodLogger_new
    have hchain : audit.chainFrom "" (pre ++ a :: (mid ++ b :: post)) = true := hfile ▸ hg.1
    rw [audit.chainFrom_append, Bool.and_eq_true] at hchain
    obtain ⟨hpre, htail⟩ := hchain
    simp only [audit.chainFrom, Bool.and_eq_true, beq_iff_eq] at htail
    obtain ⟨⟨haprev, -⟩, -⟩ := htail
    rw [List.map_append, List.map_cons]
    unfold audit.VerifyLogIntegrity
    rw [audit.verifyFrom_entries_append "" pre _ hpre]
    exact audit.verifyFrom_reject_head _ b _ (Or.inl (by rw [haprev] at hbad; exact hbad))
  case insert =>
    intro cs pre line post hfile hpost hline
    have hg := audit.goodLogger_run audit.NewLogger cs audit.goodLogger_new
    have hchain : audit.chainFrom "" (pre ++ post) = true := hfile ▸ hg.1
    rw [audit.chainFrom_append, Bool.and_eq_true] at hchain
    obtain ⟨hpre, htail⟩ := hchain
    unfold audit.VerifyLogIntegrity
    rw [audit.verifyFrom_entries_append "" pre _ hpre]
    cases line with
    | malformed =>
        cases post with
        | nil => exact absurd rfl hpost
        | cons e0 rest => exact ⟨"invalid log entry format", rfl⟩
    | entry e2 =>
        cases post with
        | nil => exact absurd rfl hpost
        | cons e0 rest =>
            simp only [audit.chainFrom, Bool.and_eq_true, beq_iff_eq] at htail
            obtain ⟨⟨h0prev, -⟩, -⟩ := htail
            have hdisj := hline e2 rfl
            simp only [List.headD_cons] at hdisj
            by_cases hA : e2.prevHash = audit.chainEnd "" pre
            · by_cases hB : e2.hash = audit.computeHash e2
              · have h3 : e2.hash ≠ e0.prevHash := by
                  rcases hdisj with h | h | h
                  · exact absurd (hA.trans h0prev.symm) h
                  · exact absurd hB h
                  · exact h
                obtain ⟨msg, hmsg⟩ :=
                  audit.verifyFrom_reject_head e2.hash e0 (rest.map audit.Line.entry)
                    (Or.inl fun hx => h3 hx.symm)
                refine ⟨msg, ?_⟩
                simp only [List.map_cons, audit.verifyFrom]
                rw [if_neg (by simp [hA]), if_neg (by simp [hB])]
                exact hmsg
              · exact audit.verifyFrom_reject_head _ e2 _ (Or.inr hB)
            · exact audit.verifyFrom_reject_head _ e2 _ (Or.inl hA)

/-- Witness for the amended C5 at the concrete two-entry file: acceptance,
rejection of a tampered reason field, rejection of a swap of the two entries,
and rejection of a malformed line inserted at the front. -/
theorem claim_C5_verifier_amended_witness :
    (audit.VerifyLogIntegrity
        ((audit.runLog audit.NewLogger audit.auditCalls).file.map audit.Line.entry) = none) ∧
    (∃ msg, audit.VerifyLogIntegrity
        (([] ++ audit.entry0Tampered :: [audit.entry1]).map audit.Line.entry) = some msg) ∧
    (∃ msg, audit.VerifyLogIntegrity
        (([] ++ audit.entry1 :: ([] ++ audit.entry0 :: [])).map audit.Line.entry) = some msg) ∧
    (∃ msg, audit.VerifyLogIntegrity
        (([] : List audit.Entry).map audit.Line.entry ++ audit.Line.malformed ::
          (audit.runLog audit.NewLogger audit.auditCalls).file.map audit.Line.entry) =
        some msg) := by
  obtain ⟨h1, h2, h3, h4⟩ := claim_C5_verifier_amended
  refine ⟨h1 audit.auditCalls, ?_, ?_, ?_⟩
  · exact h2 audit.auditCalls [] audit.entry0 audit.entry0Tampered [audit.entry1]
      (by decide) (Or.inr (by decide))
  · exact h3 audit.auditCalls [] audit.entry0 [] audit.entry1 []
      (by decide) (by decide)
  · exact h4 audit.auditCalls [] audit.Line.malformed
      (audit.runLog audit.NewLogger audit.auditCalls).file rfl (by decide)
      (fun e2 h => nomatch h)

namespace rbac

/-- `hasAllowedRole` decides exactly non-empty role intersection. -/
theorem hasAllowedRole_iff (userRoles allowedRoles : List String) :
    hasAllowedRole userRoles allowedRoles = true ↔
      ∃ r ∈ userRoles, r ∈ allowedRoles := by
  constructor
  · intro h
    simp only [hasAllowedRole, List.any_eq_true, beq_iff_eq] at h
    obtain ⟨x, hx, y, hy, hxy⟩ := h
    exact ⟨x, hx, hxy ▸ hy⟩
  · rintro ⟨r, hr, ha⟩
    simp only [hasAllowedRole, List.any_eq_true, beq_iff_eq]
    exact ⟨r, hr, r, ha, rfl⟩

/-- The policy loop forwards exactly when some rule matches the method
exactly, prefixes the path, and shares a role with the identity. -/
theorem evalPolicies_iff (roles : List String) (method path : String)
    (l : List Policy) :
    evalPolicies roles method path l = true ↔
      ∃ p ∈ l, p.method = method ∧ strStartsWith path p.path = true ∧
        ∃ r ∈ roles, r ∈ p.roles := by
  induction l with
  | nil => simp [evalPolicies]
  | cons p rest ih =>
      rw [evalPolicies]
      by_cases h1 : method ≠ p.method
      · rw [if_pos h1, ih]
        constructor
        · rintro ⟨q, hq, hprop⟩
          exact ⟨q, List.mem_cons_of_mem _ hq, hprop⟩
        · rintro ⟨q, hq, hm, hs, hr⟩
          rcases List.mem_cons.mp hq with rfl | hq2
          · exact absurd hm.symm h1
          · exact ⟨q, hq2, hm, hs, hr⟩
      · rw [if_neg h1]
        have h1e : p.method = method := (not_ne_iff.mp h1).symm
        by_cases h2 : strStartsWith path p.path
        · rw [if_neg (not_not_intro h2)]
          by_cases h3 : hasAllowedRole roles p.roles
          · rw [if_pos h3]
            refine iff_of_true rfl ?_
            exact ⟨p, List.mem_cons_self p rest, h1e, h2,
              (hasAllowedRole_iff roles p.roles).mp h3⟩
          · rw [if_neg h3, ih]
            constructor
            · rintro ⟨q, hq, hprop⟩
              exact ⟨q, List.mem_cons_of_mem _ hq, hprop⟩
            · rintro ⟨q, hq, hm, hs, hr⟩
              rcases List.mem_cons.mp hq with rfl | hq2
              · exact absurd ((hasAllowedRole_iff roles q.roles).mpr hr) h3
              · exact ⟨q, hq2, hm, hs, hr⟩
        · rw [if_pos h2, ih]
          constructor
          · rintro ⟨q, hq, hprop⟩
            exact ⟨q, List.mem_cons_of_mem _ hq, hprop⟩
          · rintro ⟨q, hq, hm, hs, hr⟩
            rcases List.mem_cons.mp hq with rfl | hq2
            · exact absurd hs h2
            · exact ⟨q, hq2, hm, hs, hr⟩

end rbac

/-- C1: for a request whose path is not `/health`, the RBAC middleware
rejects 403 when no identity is attached; with an identity it forwards
exactly when some configured rule matches the request method exactly
(case-sensitively), prefixes the request path, and shares a role with the
identity — a matching rule with an empty role intersection does not stop the
scan — and otherwise it rejects 403. -/
theorem claim_C1_rbac_decision (ps : rbac.PolicySet) (method path : String)
    (hpath : path ≠ "/health") :
    (rbac.RBACMiddleware ps method path none =
        rbac.Outcome.rejected 403 "access denied") ∧
    (∀ ident : auth.Identity,
        (rbac.RBACMiddleware ps method path (some ident) = rbac.Outcome.forwarded ↔
          ∃ p ∈ ps.policies, p.method = method ∧ strStartsWith path p.path = true ∧
            ∃ r ∈ ident.roles, r ∈ p.roles) ∧
        (rbac.RBACMiddleware ps method path (some ident) ≠ rbac.Outcome.forwarded →
          rbac.RBACMiddleware ps method path (some ident) =
            rbac.Outcome.rejected 403 "access denied")) := by
  have hb : (path == "/health") = false := beq_eq_false_iff_ne.mpr hpath
  refine ⟨by simp [rbac.RBACMiddleware, hb], fun ident => ⟨?_, ?_⟩⟩
  · rw [← rbac.evalPolicies_iff ident.roles method path ps.policies]
    simp only [rbac.RBACMiddleware, hb, Bool.false_eq_true, if_false]
    constructor
    · intro h
      by_contra he
      simp only [Bool.not_eq_true] at he
      simp [he] at h
    · intro h
      simp [h]
  · intro h
    simp only [rbac.RBACMiddleware, hb, Bool.false_eq_true, if_false] at h ⊢
    by_cases he : rbac.evalPolicies ident.roles method path ps.policies
    · simp [he] at h
    · simp [he]

/-- Witness for C1 at a concrete policy set and request. -/
theorem claim_C1_rbac_decision_witness :
    "/api/x" ≠ "/health" ∧
    ((rbac.RBACMiddleware ⟨[⟨"GET", "/api", ["admin"]⟩]⟩ "GET" "/api/x" none =
        rbac.Outcome.rejected 403 "access denied") ∧
    (∀ ident : auth.Identity,
        (rbac.RBACMiddleware ⟨[⟨"GET", "/api", ["admin"]⟩]⟩ "GET" "/api/x" (some ident) =
            rbac.Outcome.forwarded ↔
          ∃ p ∈ ([⟨"GET", "/api", ["admin"]⟩] : List rbac.Policy),
            p.method = "GET" ∧ strStartsWith "/api/x" p.path = true ∧
              ∃ r ∈ ident.roles, r ∈ p.roles) ∧
        (rbac.RBACMiddleware ⟨[⟨"GET", "/api", ["admin"]⟩]⟩ "GET" "/api/x" (some ident) ≠
            rbac.Outcome.forwarded →
          rbac.RBACMiddleware ⟨[⟨"GET", "/api", ["admin"]⟩]⟩ "GET" "/api/x" (some ident) =
            rbac.Outcome.rejected 403 "access denied"))) :=
  ⟨by decide, claim_C1_rbac_decision ⟨[⟨"GET", "/api", ["admin"]⟩]⟩ "GET" "/api/x" (by decide)⟩

/-- C2: any failing `LoadFromFile` (unreadable file, YAML error, or a rule
violating the validation invariants) leaves `GetPolicies()` empty regardless
of the previous state — in particular after a successful load — and a
successful load makes `GetPolicies()` exactly the parsed rule sequence. -/
theorem claim_C2_engine_fail_closed (e : policy.Engine) (input : policy.FileRead) :
    ((policy.LoadFromFile e input).2.isSome = true →
        policy.GetPolicies (policy.LoadFromFile e input).1 = []) ∧
    ((policy.LoadFromFile e input).2 = none →
        ∃ pf, input = policy.FileRead.parsed pf ∧
          policy.GetPolicies (policy.LoadFromFile e input).1 = pf.policies) := by
  cases input with
  | readErr => exact ⟨fun _ => rfl, fun h => nomatch h⟩
  | parseErr => exact ⟨fun _ => rfl, fun h => nomatch h⟩
  | parsed pf =>
      cases hv : policy.validatePolicyFile pf with
      | some err =>
          refine ⟨fun _ => ?_, fun h => ?_⟩
          · simp [policy.LoadFromFile, hv, policy.GetPolicies, policy.invalidate]
          · simp [policy.LoadFromFile, hv] at h
      | none =>
          refine ⟨fun h => ?_, fun _ => ⟨pf, rfl, ?_⟩⟩
          · simp [policy.LoadFromFile, hv] at h
          · simp [policy.LoadFromFile, hv, policy.GetPolicies]

/-- Witness for C2: a loaded engine emptied by a parse failure, and a fresh
engine loading a valid file. -/
theorem claim_C2_engine_fail_closed_witness :
    ((policy.LoadFromFile ⟨[⟨"GET", "/api", ["admin"]⟩], true⟩
          policy.FileRead.parseErr).2.isSome = true ∧
      policy.GetPolicies (policy.LoadFromFile ⟨[⟨"GET", "/api", ["admin"]⟩], true⟩
          policy.FileRead.parseErr).1 = []) ∧
    ((policy.LoadFromFile policy.NewEngine
          (policy.FileRead.parsed ⟨[⟨"GET", "/api", ["admin"]⟩]⟩)).2 = none ∧
      ∃ pf, policy.FileRead.parsed (⟨[⟨"GET", "/api", ["admin"]⟩]⟩ : policy.PolicyFile) =
          policy.FileRead.parsed pf ∧
        policy.GetPolicies (policy.LoadFromFile policy.NewEngine
          (policy.FileRead.parsed ⟨[⟨"GET", "/api", ["admin"]⟩]⟩)).1 = pf.policies) :=
  ⟨⟨by decide,
    (claim_C2_engine_fail_closed ⟨[⟨"GET", "/api", ["admin"]⟩], true⟩
      policy.FileRead.parseErr).1 (by decide)⟩,
   ⟨by decide,
    (claim_C2_engine_fail_closed policy.NewEngine
      (policy.FileRead.parsed ⟨[⟨"GET", "/api", ["admin"]⟩]⟩)).2 (by decide)⟩⟩

/-- The watcher never touches the RBAC middleware rule set captured at
startup. -/
theorem gatewayRun_rbacPolicies (g : gateway.Gateway) (evs : List gateway.WatchEvent) :
    (gateway.gatewayRun g evs).rbacPolicies = g.rbacPolicies := by
  induction evs generalizing g with
  | nil => rfl
  | cons ev rest ih => exact (ih (gateway.gatewayStep g ev)).trans rfl

/-- C3: in the assembled gateway the rule set consulted by the RBAC
middleware is the one-time `GetPolicies()` snapshot taken in `main` before
the watcher starts, so no sequence of later watcher events (successful or
failing reloads, invalidation) changes the RBAC decision of any later
request. -/
theorem claim_C3_startup_snapshot (initialLoad : policy.FileRead)
    (evs : List gateway.WatchEvent) (method path : String)
    (ident : Option auth.Identity) :
    gateway.gatewayRBACDecide (gateway.gatewayRun (gateway.gatewayInit initialLoad) evs)
        method path ident =
      gateway.gatewayRBACDecide (gateway.gatewayInit initialLoad) method path ident := by
  unfold gateway.gatewayRBACDecide
  rw [gatewayRun_rbacPolicies]

namespace ratelimit

/-- `allow` in terms of `refilled`: clamp, then deny or spend. -/
theorem allow_eq (b : Bucket) (now : ℚ) :
    b.allow now =
      if refilled b now < 1 then ({ b with tokens := refilled b now, last := now }, false)
      else ({ b with tokens := refilled b now - 1, last := now }, true) := by
  have hmin : (if b.tokens + (now - b.last) * b.refillPS > (b.capacity : ℚ)
      then (b.capacity : ℚ) else b.tokens + (now - b.last) * b.refillPS) = refilled b now := by
    unfold refilled
    rcases le_or_lt (b.tokens + (now - b.last) * b.refillPS) (b.capacity : ℚ) with h | h
    · rw [if_neg (not_lt.mpr h), min_eq_right h]
    · rw [if_pos h, min_eq_left h.le]
  simp only [Bucket.allow]
  rw [hmin]

theorem refilled_nonneg (b : Bucket) (now : ℚ) (h0 : 0 ≤ b.tokens)
    (hr : 0 ≤ b.refillPS) (hc : 0 ≤ (b.capacity : ℚ)) (hel : b.last ≤ now) :
    0 ≤ refilled b now :=
  le_min hc (add_nonneg h0 (mul_nonneg (sub_nonneg.mpr hel) hr))

/-- In a chain of `≤` every member dominates the start. -/
theorem chain_le_mem {a : ℚ} {ts : List ℚ} (h : List.Chain (· ≤ ·) a ts) :
    ∀ x ∈ ts, a ≤ x := by
  induction ts generalizing a with
  | nil => simp
  | cons t rest ih =>
      rcases List.chain_cons.mp h with ⟨hat, hrest⟩
      intro x hx
      rcases List.mem_cons.mp hx with rfl | hx2
      · exact hat
      · exact le_trans hat (ih hrest x hx2)

/-- Requests past the window never count. -/
theorem countWin_zero (lo hi : ℚ) (ts : List ℚ) :
    ∀ b : Bucket, (∀ t ∈ ts, hi < t) → countAllowedWin b lo hi ts = 0 := by
  induction ts with
  | nil => intro b _; rfl
  | cons t rest ih =>
      intro b hall
      rw [countAllowedWin]
      rw [if_neg fun hcond =>
        absurd hcond.2.2 (not_le.mpr (hall t (List.mem_cons_self t rest)))]
      rw [ih _ fun x hx => hall x (List.mem_cons_of_mem _ hx)]

/-- Budget bound: from any state whose `last` is at most `hi`, the in-window
allowed count is at most the current tokens plus the refill available up to
`hi`.  Clamping only lowers the balance, so capacity does not appear. -/
theorem countWin_le_budget (lo hi : ℚ) (ts : List ℚ) :
    ∀ b : Bucket, List.Chain (· ≤ ·) b.last ts →
    0 ≤ b.refillPS → 0 ≤ (b.capacity : ℚ) → 0 ≤ b.tokens → b.last ≤ hi →
    (countAllowedWin b lo hi ts : ℚ) ≤ b.tokens + b.refillPS * (hi - b.last) := by
  induction ts with
  | nil =>
      intro b _ hr hc h0 hlast
      simpa [countAllowedWin] using
        add_nonneg h0 (mul_nonneg hr (sub_nonneg.mpr hlast))
  | cons t rest ih =>
      intro b hchain hr hc h0 hlast
      rcases List.chain_cons.mp hchain with ⟨hbt, hrest⟩
      by_cases hthi : t ≤ hi
      · by_cases hden : refilled b t < 1
        · rw [countAllowedWin, allow_eq b t, if_pos hden]
          simp only [Bool.false_eq_true, false_and, if_false, Nat.cast_add, Nat.cast_zero,
            zero_add]
          have hIH := ih { b with tokens := refilled b t, last := t }
            (by simpa using hrest) (by simpa using hr) (by simpa using hc)
            (refilled_nonneg b t h0 hr hc hbt) (by simpa using hthi)
          have hIHs : (countAllowedWin { b with tokens := refilled b t, last := t } lo hi rest : ℚ)
              ≤ refilled b t + b.refillPS * (hi - t) := by simpa using hIH
          have hmr : refilled b t ≤ b.tokens + (t - b.last) * b.refillPS := min_le_right _ _
          linarith
        · rw [countAllowedWin, allow_eq b t, if_neg hden]
          have h1le : 1 ≤ refilled b t := not_lt.mp hden
          have hIH := ih { b with tokens := refilled b t - 1, last := t }
            (by simpa using hrest) (by simpa using hr) (by simpa using hc)
            (by simpa using sub_nonneg.mpr h1le) (by simpa using hthi)
          have hIHs : (countAllowedWin { b with tokens := refilled b t - 1, last := t } lo hi rest : ℚ)
              ≤ (refilled b t - 1) + b.refillPS * (hi - t) := by simpa using hIH
          simp only [Nat.cast_add, eq_self_iff_true, true_and]
          have hc1 : ((if lo ≤ t ∧ t ≤ hi then 1 else 0 : Nat) : ℚ) ≤ 1 := by
            split <;> norm_num
          have hmr : refilled b t ≤ b.tokens + (t - b.last) * b.refillPS := min_le_right _ _
          linarith
      · have hall : ∀ x ∈ t :: rest, hi < x := by
          intro x hx
          rcases List.mem_cons.mp hx with rfl | hx2
          · exact not_le.mp hthi
          · exact lt_of_lt_of_le (not_le.mp hthi) (chain_le_mem hrest x hx2)
        rw [countWin_zero lo hi (t :: rest) b hall]
        simpa using add_nonneg h0 (mul_nonneg hr (sub_nonneg.mpr hlast))

/-- Window bound from any state: the in-window allowed count is at most
capacity plus the refill over the window length. -/
theorem countWin_le_cap (lo hi : ℚ) (hlohi : lo ≤ hi) (ts : List ℚ) :
    ∀ b : Bucket, List.Chain (· ≤ ·) b.last ts →
    0 ≤ b.refillPS → 0 ≤ (b.capacity : ℚ) → 0 ≤ b.tokens →
    (countAllowedWin b lo hi ts : ℚ) ≤ (b.capacity : ℚ) + b.refillPS * (hi - lo) := by
  induction ts with
  | nil =>
      intro b _ hr hc h0
      simpa [countAllowedWin] using
        add_nonneg hc (mul_nonneg hr (sub_nonneg.mpr hlohi))
  | cons t rest ih =>
      intro b hchain hr hc h0
      rcases List.chain_cons.mp hchain with ⟨hbt, hrest⟩
      by_cases hthi : t ≤ hi
      · by_cases htlo : lo ≤ t
        · have hmono : b.refillPS * (hi - t) ≤ b.refillPS * (hi - lo) :=
            mul_le_mul_of_nonneg_left (sub_le_sub_left htlo hi) hr
          have hml : refilled b t ≤ (b.capacity : ℚ) := min_le_left _ _
          by_cases hden : refilled b t < 1
          · rw [countAllowedWin, allow_eq b t, if_pos hden]
            simp only [Bool.false_eq_true, false_and, if_false, Nat.cast_add, Nat.cast_zero,
              zero_add]
            have hbud := countWin_le_budget lo hi rest
              { b with tokens := refilled b t, last := t }
              (by simpa using hrest) (by simpa using hr) (by simpa using hc)
              (refilled_nonneg b t h0 hr hc hbt) (by simpa using hthi)
            have hbs : (countAllowedWin { b with tokens := refilled b t, last := t } lo hi rest : ℚ)
                ≤ refilled b t + b.refillPS * (hi - t) := by simpa using hbud
            linarith
          · rw [countAllowedWin, allow_eq b t, if_neg hden]
            have h1le : 1 ≤ refilled b t := not_lt.mp hden
            have hbud := countWin_le_budget lo hi rest
              { b with tokens := refilled b t - 1, last := t }
              (by simpa using hrest) (by simpa using hr) (by simpa using hc)
              (by simpa using sub_nonneg.mpr h1le) (by simpa using hthi)
            have hbs : (countAllowedWin { b with tokens := refilled b t - 1, last := t } lo hi rest : ℚ)
                ≤ (refilled b t - 1) + b.refillPS * (hi - t) := by simpa using hbud
            simp only [Nat.cast_add, eq_self_iff_true, true_and]
            have hc1 : ((if lo ≤ t ∧ t ≤ hi then 1 else 0 : Nat) : ℚ) ≤ 1 := by
              split <;> norm_num
            linarith
        · rw [countAllowedWin]
          rw [if_neg fun hcond => htlo hcond.2.1]
          have hb2 := allow_eq b t
          have htok2 : 0 ≤ ((b.allow t).1).tokens := by
            rw [hb2]
            by_cases hden : refilled b t < 1
            · simpa [if_pos hden] using refilled_nonneg b t h0 hr hc hbt
            · simpa [if_neg hden] using sub_nonneg.mpr (not_lt.mp hden)
          have hlast2 : ((b.allow t).1).last = t := by
            rw [hb2]
            by_cases hden : refilled b t < 1
            · simp [if_pos hden]
            · simp [if_neg hden]
          have hrf2 : ((b.allow t).1).refillPS = b.refillPS := by
            rw [hb2]
            by_cases hden : refilled b t < 1
            · simp [if_pos hden]
            · simp [if_neg hden]
          have hcap2 : ((b.allow t).1).capacity = b.capacity := by
            rw [hb2]
            by_cases hden : refilled b t < 1
            · simp [if_pos hden]
            · simp [if_neg hden]
          have hIH := ih ((b.allow t).1) (by rw [hlast2]; exact hrest)
            (by rw [hrf2]; exact hr) (by rw [hcap2]; exact hc) htok2
          rw [hcap2, hrf2] at hIH
          simpa using hIH
      · have hall : ∀ x ∈ t :: rest, hi < x := by
          intro x hx
          rcases List.mem_cons.mp hx with rfl | hx2
          · exact not_le.mp hthi
          · exact lt_of_lt_of_le (not_le.mp hthi) (chain_le_mem hrest x hx2)
        rw [countWin_zero lo hi (t :: rest) b hall]
        simpa using add_nonneg hc (mul_nonneg hr (sub_nonneg.mpr hlohi))

end ratelimit

/-- C6: one token-bucket step at time `now` sets `last := now`, refills to
`min(capacity, tokens + (now - last) * refillPS)`, denies exactly when that
refilled count is below 1 (leaving it unchanged), and otherwise spends
exactly one token and allows; a fresh bucket starts with
`tokens = capacity`. -/
theorem claim_C6_bucket_step (b : ratelimit.Bucket) (now : ℚ) :
    ((b.allow now).1.last = now) ∧
    ((b.allow now).2 = false ↔
      min ((b.capacity : ℚ)) (b.tokens + (now - b.last) * b.refillPS) < 1) ∧
    ((b.allow now).2 = false →
      (b.allow now).1.tokens =
        min ((b.capacity : ℚ)) (b.tokens + (now - b.last) * b.refillPS)) ∧
    ((b.allow now).2 = true →
      (b.allow now).1.tokens =
        min ((b.capacity : ℚ)) (b.tokens + (now - b.last) * b.refillPS) - 1) ∧
    (∀ (c r : Int) (t0 : ℚ), (ratelimit.newBucket c r t0).tokens = (c : ℚ)) := by
  rw [ratelimit.allow_eq]
  unfold ratelimit.refilled
  by_cases hden : min ((b.capacity : ℚ)) (b.tokens + (now - b.last) * b.refillPS) < 1
  · rw [if_pos hden]
    exact ⟨rfl, iff_of_true rfl hden, fun _ => rfl, fun h => absurd h (by simp),
      fun c r t0 => rfl⟩
  · rw [if_neg hden]
    exact ⟨rfl, iff_of_false (by simp) hden, fun h => absurd h (by simp), fun _ => rfl,
      fun c r t0 => rfl⟩

/-- Witness for C6: the IP bucket created at time 0, hit at time 1. -/
theorem claim_C6_bucket_step_witness :
    ((ratelimit.newBucket 20 5 0).allow 1).1.last = 1 ∧
    ((ratelimit.newBucket 20 5 0).allow 1).2 = true ∧
    ((ratelimit.newBucket 20 5 0).allow 1).1.tokens = 19 := by
  obtain ⟨hl, hiff, -, htru, -⟩ := claim_C6_bucket_step (ratelimit.newBucket 20 5 0) 1
  have hne : ¬ (min (((ratelimit.newBucket 20 5 0).capacity : ℚ))
      ((ratelimit.newBucket 20 5 0).tokens +
        ((1 : ℚ) - (ratelimit.newBucket 20 5 0).last) *
          (ratelimit.newBucket 20 5 0).refillPS) < 1) := by
    norm_num [ratelimit.newBucket]
  have h2 : ((ratelimit.newBucket 20 5 0).allow 1).2 = true := by
    cases hb : ((ratelimit.newBucket 20 5 0).allow 1).2 with
    | false => exact absurd (hiff.mp hb) hne
    | true => rfl
  refine ⟨hl, h2, ?_⟩
  rw [htru h2]
  norm_num [ratelimit.newBucket, min_def]

/-- C7: for one bucket (created at `t0` as the limiter does) and any
non-decreasing sequence of request timestamps, the number of allowed
requests whose timestamp falls in any window `[lo, lo + W]` never exceeds
`capacity + refillPerSecond * W`. -/
theorem claim_C7_rate_window_bound (c r : Int) (t0 lo W : ℚ) (ts : List ℚ)
    (hc : 0 ≤ c) (hr : 0 ≤ r) (hW : 0 ≤ W)
    (hchain : List.Chain (· ≤ ·) t0 ts) :
    (ratelimit.countAllowedWin (ratelimit.newBucket c r t0) lo (lo + W) ts : ℚ) ≤
      (c : ℚ) + (r : ℚ) * W := by
  have hres := ratelimit.countWin_le_cap lo (lo + W) (by linarith) ts
    (ratelimit.newBucket c r t0) hchain
    (show (0 : ℚ) ≤ ((r : Int) : ℚ) by exact_mod_cast hr)
    (show (0 : ℚ) ≤ ((c : Int) : ℚ) by exact_mod_cast hc)
    (show (0 : ℚ) ≤ ((c : Int) : ℚ) by exact_mod_cast hc)
  have heq : lo + W - lo = W := by ring
  rw [heq] at hres
  exact hres

/-- Witness for C7: the fallback bucket (capacity 2, refill 1) hit three
times at time 0, window `[0, 1]`. -/
theorem claim_C7_rate_window_bound_witness :
    (0 : Int) ≤ 2 ∧ (0 : Int) ≤ 1 ∧ (0 : ℚ) ≤ 1 ∧
      List.Chain (· ≤ ·) (0 : ℚ) [0, 0, 0] ∧
      (ratelimit.countAllowedWin (ratelimit.newBucket 2 1 0) 0 (0 + 1) [0, 0, 0] : ℚ) ≤
        ((2 : Int) : ℚ) + ((1 : Int) : ℚ) * 1 := by
  have hch : List.Chain (· ≤ ·) (0 : ℚ) [0, 0, 0] := by
    simp [List.chain_cons]
  exact ⟨by norm_num, by norm_num, by norm_num, hch,
    claim_C7_rate_window_bound 2 1 0 0 1 [0, 0, 0] (by norm_num) (by norm_num)
      (by norm_num) hch⟩

/-- C8: for every request handled by the audit wrapper with a healthy audit
logger, exactly one audit entry is appended, recording decision ALLOW when
the status produced by the inner chain is below 400 and DENY otherwise, with
reason "all checks passed" on allow and the canonical reason phrase of the
status on deny; and exactly the matching stats counter is incremented. -/
theorem claim_C8_audit_wrapper (stats : gateway.Stats) (logger : audit.Logger)
    (method path timestamp : String) (innerWrites : List Nat) :
    (∃ e : audit.Entry,
        (gateway.auditMiddleware stats logger method path timestamp innerWrites true).2.file =
          logger.file ++ [e] ∧
        e.method = method ∧ e.path = path ∧ e.timestamp = timestamp ∧
        e.decision = (if gateway.recordedStatus innerWrites < 400 then "ALLOW" else "DENY") ∧
        e.reason = (if gateway.recordedStatus innerWrites < 400 then "all checks passed"
          else gateway.StatusText (gateway.recordedStatus innerWrites))) ∧
    (gateway.recordedStatus innerWrites < 400 →
        (gateway.auditMiddleware stats logger method path timestamp innerWrites true).1.allow =
            stats.allow + 1 ∧
          (gateway.auditMiddleware stats logger method path timestamp innerWrites true).1.deny =
            stats.deny) ∧
    (400 ≤ gateway.recordedStatus innerWrites →
        (gateway.auditMiddleware stats logger method path timestamp innerWrites true).1.deny =
            stats.deny + 1 ∧
          (gateway.auditMiddleware stats logger method path timestamp innerWrites true).1.allow =
            stats.allow) := by
  by_cases hlt : gateway.recordedStatus innerWrites < 400
  · have hge : ¬ (gateway.recordedStatus innerWrites ≥ 400) := not_le.mpr hlt
    have hmw : gateway.auditMiddleware stats logger method path timestamp innerWrites true =
        ({ stats with allow := stats.allow + 1 },
          audit.Log logger ⟨timestamp, method, path, "ALLOW", "all checks passed", true⟩) := by
      simp only [gateway.auditMiddleware, if_neg hge]
      rw [if_pos (show ("ALLOW" == "ALLOW") = true by decide)]
    refine ⟨⟨audit.mkEntry logger.lastHash
        ⟨timestamp, method, path, "ALLOW", "all checks passed", true⟩, ?_, rfl, rfl, rfl, ?_, ?_⟩,
      fun _ => ?_, fun h => absurd h hge⟩
    · rw [hmw]; rfl
    · rw [if_pos hlt]; rfl
    · rw [if_pos hlt]; rfl
    · rw [hmw]; exact ⟨rfl, rfl⟩
  · have h4 : gateway.recordedStatus innerWrites ≥ 400 := not_lt.mp hlt
    have hmw : gateway.auditMiddleware stats logger method path timestamp innerWrites true =
        ({ stats with deny := stats.deny + 1 },
          audit.Log logger ⟨timestamp, method, path, "DENY",
            gateway.StatusText (gateway.recordedStatus innerWrites), true⟩) := by
      simp only [gateway.auditMiddleware, if_pos h4]
      rw [if_neg (show ¬ (("DENY" == "ALLOW") = true) by decide)]
    refine ⟨⟨audit.mkEntry logger.lastHash
        ⟨timestamp, method, path, "DENY",
          gateway.StatusText (gateway.recordedStatus innerWrites), true⟩,
        ?_, rfl, rfl, rfl, ?_, ?_⟩,
      fun h => absurd h hlt, fun _ => ?_⟩
    · rw [hmw]; rfl
    · rw [if_neg hlt]; rfl
    · rw [if_neg hlt]; rfl
    · rw [hmw]; exact ⟨rfl, rfl⟩

/-- Witness for C8: an allowed request (status 200) and a denied request
(status 403) at concrete counters. -/
theorem claim_C8_audit_wrapper_witness :
    (gateway.recordedStatus [200] < 400 ∧
      ((gateway.auditMiddleware ⟨3, 4⟩ audit.NewLogger "GET" "/a" "t" [200] true).1.allow =
          3 + 1 ∧
        (gateway.auditMiddleware ⟨3, 4⟩ audit.NewLogger "GET" "/a" "t" [200] true).1.deny =
          4)) ∧
    (400 ≤ gateway.recordedStatus [403] ∧
      ((gateway.auditMiddleware ⟨3, 4⟩ audit.NewLogger "GET" "/a" "t" [403] true).1.deny =
          4 + 1 ∧
        (gateway.auditMiddleware ⟨3, 4⟩ audit.NewLogger "GET" "/a" "t" [403] true).1.allow =
          3)) :=
  ⟨⟨by decide,
    (claim_C8_audit_wrapper ⟨3, 4⟩ audit.NewLogger "GET" "/a" "t" [200]).2.1 (by decide)⟩,
   ⟨by decide,
    (claim_C8_audit_wrapper ⟨3, 4⟩ audit.NewLogger "GET" "/a" "t" [403]).2.2 (by decide)⟩⟩

namespace auth

/-- A Go `.(float64)` assertion succeeding pins down the claim value. -/
theorem jvalAsNumber_eq_some (o : Option JVal) (q : ℚ) :
    jvalAsNumber o = some q ↔ o = some (JVal.jnum q) := by
  cases o with
  | none => simp [jvalAsNumber]
  | some v => cases v <;> simp [jvalAsNumber]

/-- On nonnegative rationals, Go float64-to-int64 truncation agrees with
the floor. -/
theorem truncRat_eq_floor (q : ℚ) (h : 0 ≤ q) : truncRat q = ⌊q⌋ := by
  rw [truncRat, Rat.floor_def]
  exact Int.tdiv_eq_ediv (Rat.num_nonneg.mpr h) (Int.natCast_nonneg q.den)

/-- At any instant from one second past the epoch on, a token that survives
both the v5 expiry validation and the manual truncated-seconds check has its
`exp` strictly in the future. -/
theorem v5_surviving_exp_future (now e : ℚ) (claims : MapClaims)
    (hexp : claims.exp = some (JVal.jnum e))
    (hv5 : v5ExpInvalid now claims = false)
    (hman : ¬ unixSec now > truncRat e)
    (hnow : 1 ≤ now) : now < e := by
  simp only [v5ExpInvalid, hexp] at hv5
  by_cases h0 : e = 0
  · exfalso
    subst h0
    have h1 : (1 : Int) ≤ unixSec now := Int.le_floor.mpr (by exact_mod_cast hnow)
    have h2 : truncRat 0 = 0 := by decide
    rw [h2] at hman
    omega
  · rw [if_neg h0] at hv5
    simpa using hv5

/-- A strictly future `exp` passes the v5 expiry validation (past one second
into the epoch, such an `exp` is nonzero). -/
theorem v5ExpInvalid_of_future (now e : ℚ) (claims : MapClaims)
    (hexp : claims.exp = some (JVal.jnum e))
    (hnow : 1 ≤ now) (hlt : now < e) : v5ExpInvalid now claims = false := by
  have h0 : ¬ e = 0 := by intro h; rw [h] at hlt; linarith
  simp [v5ExpInvalid, hexp, h0, not_le.mpr hlt]

/-- A strictly future `exp` also passes the middleware's own
truncated-seconds comparison. -/
theorem unixSec_le_truncRat (now e : ℚ) (hnow : 1 ≤ now) (hlt : now < e) :
    ¬ unixSec now > truncRat e := by
  have he : (0 : ℚ) ≤ e := le_trans (le_trans zero_le_one hnow) (le_of_lt hlt)
  rw [truncRat_eq_floor e he]
  exact not_lt.mpr (Int.floor_le_floor (le_of_lt hlt))

end auth

set_option maxHeartbeats 1600000 in
/-- C9: for any request to a path other than `/health`, at any instant at
least one second past the Unix epoch (every instant the running gateway can
observe), the bearer-token authenticator responds 401 unless the
Authorization header has the form `Bearer <token>` and the token parses as a
validly signed token: signature algorithm exactly RS256 (any other
algorithm, including "none", fails the keyfunc), a signature valid under the
configured key, and the library's registered-claims validation passing — in
particular the `exp` claim present and strictly in the future (`now < exp`,
the binding check; the middleware's own truncated-seconds comparison is
implied by it) and no `nbf` still in the future — with `iss` equal to the
configured issuer, `aud` equal to the configured audience, and a non-empty
string `sub`; on success it forwards with an `Identity` carrying that
subject and the token's string-valued roles. -/
theorem claim_C9_jwt_auth (cfg : auth.JWTConfig) (parse : String → Option auth.Token)
    (now : ℚ) (path header : String) (hp : path ≠ "/health") (hnow : 1 ≤ now) :
    ((∃ msg, auth.JWTMiddleware cfg parse now path header =
        auth.JWTOutcome.rejected 401 msg) ∨
      (∃ ident, auth.JWTMiddleware cfg parse now path header =
        auth.JWTOutcome.forwarded (some ident))) ∧
    (∀ ident : Option auth.Identity,
      auth.JWTMiddleware cfg parse now path header = auth.JWTOutcome.forwarded ident ↔
        ∃ tokenStr tok sub,
          auth.splitN2Space header = ["Bearer", tokenStr] ∧
          header ≠ "" ∧
          parse tokenStr = some tok ∧
          tok.alg = "RS256" ∧
          tok.sigValid = true ∧
          (∃ e, tok.claims.exp = some (auth.JVal.jnum e) ∧ now < e) ∧
          auth.v5NbfInvalid now tok.claims = false ∧
          auth.jvalEqStr tok.claims.iss cfg.issuer = true ∧
          auth.jvalAsString tok.claims.aud = some cfg.audience ∧
          auth.jvalAsString tok.claims.sub = some sub ∧
          sub ≠ "" ∧
          ident = some
            { type := auth.AuthType.jwt, subject := sub,
              roles := auth.extractRoles tok.claims,
              issuer := cfg.issuer, audience := cfg.audience }) := by
  have hb : (path == "/health") = false := beq_eq_false_iff_ne.mpr hp
  constructor
  · unfold auth.JWTMiddleware
    rw [hb]
    simp only [Bool.false_eq_true, if_false]
    repeat' split
    all_goals first
      | exact Or.inl ⟨_, rfl⟩
      | exact Or.inr ⟨_, rfl⟩
  · intro ident
    unfold auth.JWTMiddleware
    rw [hb]
    simp only [Bool.false_eq_true, if_false]
    constructor
    · intro h
      by_cases h0 : header == ""
      · rw [if_pos h0] at h
        exact auth.JWTOutcome.noConfusion h
      · rw [if_neg h0] at h
        have hne : header ≠ "" := by simpa using h0
        split at h
        all_goals try (exact auth.JWTOutcome.noConfusion h)
        rename_i bearer tokenStr heq
        by_cases hbe : bearer != "Bearer"
        · rw [if_pos hbe] at h; exact auth.JWTOutcome.noConfusion h
        · rw [if_neg hbe] at h
          have hb1 : bearer = "Bearer" := by simpa using hbe
          subst hb1
          split at h
          all_goals try (exact auth.JWTOutcome.noConfusion h)
          rename_i tok hpar
          by_cases halg : tok.alg != "RS256"
          · rw [if_pos halg] at h; exact auth.JWTOutcome.noConfusion h
          · rw [if_neg halg] at h
            have halg2 : tok.alg = "RS256" := by simpa using halg
            by_cases hsig : tok.sigValid
            · rw [if_neg (not_not_intro hsig)] at h
              by_cases hv5 : auth.v5ClaimsInvalid now tok.claims
              · rw [if_pos hv5] at h; exact auth.JWTOutcome.noConfusion h
              · rw [if_neg hv5] at h
                have hv5f : auth.v5ClaimsInvalid now tok.claims = false := by
                  simpa using hv5
                simp only [auth.v5ClaimsInvalid, Bool.or_eq_false_iff] at hv5f
                obtain ⟨hv5e, hv5n⟩ := hv5f
                by_cases hiss : auth.jvalEqStr tok.claims.iss cfg.issuer
                · rw [if_neg (not_not_intro hiss)] at h
                  split at h
                  all_goals try (exact auth.JWTOutcome.noConfusion h)
                  rename_i a ha
                  by_cases hau : a != cfg.audience
                  · rw [if_pos hau] at h; exact auth.JWTOutcome.noConfusion h
                  · rw [if_neg hau] at h
                    have hau2 : a = cfg.audience := by simpa using hau
                    subst hau2
                    split at h
                    all_goals try (exact auth.JWTOutcome.noConfusion h)
                    rename_i e he
                    by_cases hman : auth.unixSec now > auth.truncRat e
                    · rw [if_pos hman] at h; exact auth.JWTOutcome.noConfusion h
                    · rw [if_neg hman] at h
                      split at h
                      all_goals try (exact auth.JWTOutcome.noConfusion h)
                      rename_i s hs
                      by_cases hse : s == ""
                      · rw [if_pos hse] at h; exact auth.JWTOutcome.noConfusion h
                      · rw [if_neg hse] at h
                        have hsne : s ≠ "" := by simpa using hse
                        have hident : ident = some
                            { type := auth.AuthType.jwt, subject := s,
                              roles := auth.extractRoles tok.claims,
                              issuer := cfg.issuer,
                              audience := cfg.audience } :=
                          (auth.JWTOutcome.forwarded.inj h).symm
                        have hexpEq : tok.claims.exp = some (auth.JVal.jnum e) :=
                          (auth.jvalAsNumber_eq_some tok.claims.exp e).mp he
                        have hlt : now < e :=
                          auth.v5_surviving_exp_future now e tok.claims hexpEq
                            hv5e hman hnow
                        exact ⟨tokenStr, tok, s, heq, hne, hpar, halg2, hsig,
                          ⟨e, hexpEq, hlt⟩, hv5n, hiss, ha, hs, hsne, hident⟩
                · rw [if_pos hiss] at h; exact auth.JWTOutcome.noConfusion h
            · rw [if_pos hsig] at h; exact auth.JWTOutcome.noConfusion h
    · rintro ⟨tokenStr, tok, sub, hsp, hne, hpar, halg, hsig, ⟨e, hexp, hlt⟩,
        hnbf, hiss, haud, hsub, hsubne, hident⟩
      have hv5e : auth.v5ExpInvalid now tok.claims = false :=
        auth.v5ExpInvalid_of_future now e tok.claims hexp hnow hlt
      have hv5 : auth.v5ClaimsInvalid now tok.claims = false := by
        simp [auth.v5ClaimsInvalid, hv5e, hnbf]
      have hexpNum : auth.jvalAsNumber tok.claims.exp = some e := by
        rw [hexp]; rfl
      have hman : ¬ auth.unixSec now > auth.truncRat e :=
        auth.unixSec_le_truncRat now e hnow hlt
      rw [show (header == "") = false from beq_eq_false_iff_ne.mpr hne]
      simp [hsp, hpar, halg, hsig, hv5, hiss, haud, hexpNum, hsub, hident, hman,
        show (sub == "") = false from beq_eq_false_iff_ne.mpr hsubne]

/-- Witness for C9 at a concrete configuration, parser, token and
request. -/
theorem claim_C9_jwt_auth_witness :
    "/x" ≠ "/health" ∧ (1 : ℚ) ≤ 100 ∧
    (((∃ msg, auth.JWTMiddleware auth.sampleCfg auth.sampleParse 100 "/x" "Bearer tok" =
        auth.JWTOutcome.rejected 401 msg) ∨
      (∃ ident, auth.JWTMiddleware auth.sampleCfg auth.sampleParse 100 "/x" "Bearer tok" =
        auth.JWTOutcome.forwarded (some ident))) ∧
    (∀ ident : Option auth.Identity,
      auth.JWTMiddleware auth.sampleCfg auth.sampleParse 100 "/x" "Bearer tok" =
          auth.JWTOutcome.forwarded ident ↔
        ∃ tokenStr tok sub,
          auth.splitN2Space "Bearer tok" = ["Bearer", tokenStr] ∧
          "Bearer tok" ≠ "" ∧
          auth.sampleParse tokenStr = some tok ∧
          tok.alg = "RS256" ∧
          tok.sigValid = true ∧
          (∃ e, tok.claims.exp = some (auth.JVal.jnum e) ∧ (100 : ℚ) < e) ∧
          auth.v5NbfInvalid 100 tok.claims = false ∧
          auth.jvalEqStr tok.claims.iss auth.sampleCfg.issuer = true ∧
          auth.jvalAsString tok.claims.aud = some auth.sampleCfg.audience ∧
          auth.jvalAsString tok.claims.sub = some sub ∧
          sub ≠ "" ∧
          ident = some
            { type := auth.AuthType.jwt, subject := sub,
              roles := auth.extractRoles tok.claims,
              issuer := auth.sampleCfg.issuer, audience := auth.sampleCfg.audience })) :=
  ⟨by decide, by decide,
   claim_C9_jwt_auth auth.sampleCfg auth.sampleParse 100 "/x" "Bearer tok"
     (by decide) (by decide)⟩

namespace gateway

/-- The chain contexts reaching the limiter carry nothing under
`UserIDKey`. -/
theorem ctxUserID_withAuth (ctx : Ctx) (v : CtxVal) :
    ctxUserID (withValue ctx CtxKey.authIdentity v) = ctxUserID ctx := rfl

/-- When the context carries nothing under `UserIDKey`, `safeAllow` never
touches the user-bucket map. -/
theorem safeAllow_no_user (l : LimiterState) (ctx : Ctx) (remoteIP : Option String)
    (now : ℚ) (hctx : ctxUserID ctx = none) :
    (safeAllow l ctx remoteIP now).1.userBuckets = l.userBuckets := by
  cases remoteIP with
  | none => rfl
  | some ip =>
      simp only [safeAllow, hctx]
      split <;> rfl

/-- Any context the API-key stage passes on has nothing under `UserIDKey`. -/
theorem apiKey_pass_no_user (store : List (String × auth.APIKey)) (req : Request)
    (ctx1 : Ctx) (h : APIKeyMiddleware store req [] = StageResult.pass ctx1) :
    ctxUserID ctx1 = none := by
  simp only [APIKeyMiddleware] at h
  split at h
  · rw [← StageResult.pass.inj h]; rfl
  · split at h
    · exact StageResult.noConfusion h
    · split at h
      · exact StageResult.noConfusion h
      · split at h
        · exact StageResult.noConfusion h
        · rw [← StageResult.pass.inj h]; rfl

/-- The RBAC stage passes the context through unchanged. -/
theorem rbac_pass_ctx (ps : rbac.PolicySet) (req : Request) (ctx ctx2 : Ctx)
    (h : rbacStage ps req ctx = StageResult.pass ctx2) : ctx2 = ctx := by
  unfold rbacStage at h
  split at h
  · exact (StageResult.pass.inj h).symm
  · exact StageResult.noConfusion h

/-- One secured-chain request never touches the user-bucket map. -/
theorem securedChain_userBuckets (store : List (String × auth.APIKey))
    (ps : rbac.PolicySet) (ls : LimiterState) (req : Request) :
    (securedChain store ps ls req).1.userBuckets = ls.userBuckets := by
  simp only [securedChain]
  split
  · rfl
  · split
    · rfl
    · rename_i ctx1 hpass1
      split
      · rfl
      · rename_i ctx2 hpass2
        have hctx1 := apiKey_pass_no_user store req ctx1 hpass1
        have hctx2 : ctxUserID ctx2 = none := by
          rw [rbac_pass_ctx ps req ctx1 ctx2 hpass2]
          exact hctx1
        have hsafe := safeAllow_no_user ls ctx2 req.remoteIP req.now hctx2
        split <;> simpa using hsafe

end gateway

/-- C10: in the assembled gateway's secured chain, no stage stores a value
under the limiter's `UserIDKey`, so the per-user bucket is never consulted:
after any sequence of requests, the `userBuckets` map is still empty and the
dashboard's `user_buckets` count is 0 — only the per-IP bucket (or the
fallback bucket) ever decides. -/
theorem claim_C10_user_bucket_unused (store : List (String × auth.APIKey))
    (ps : rbac.PolicySet) (fallbackInit : ratelimit.Bucket) (reqs : List gateway.Request) :
    (gateway.processRequests store ps (gateway.NewLimiter fallbackInit) reqs).userBuckets =
        [] ∧
      (gateway.LimiterStats
        (gateway.processRequests store ps (gateway.NewLimiter fallbackInit) reqs)).2 = 0 := by
  have hgen : ∀ (reqs : List gateway.Request) (ls : gateway.LimiterState),
      (gateway.processRequests store ps ls reqs).userBuckets = ls.userBuckets := by
    intro reqs
    induction reqs with
    | nil => intro ls; rfl
    | cons req rest ih =>
        intro ls
        rw [gateway.processRequests, ih, gateway.securedChain_userBuckets]
  constructor
  · rw [hgen reqs (gateway.NewLimiter fallbackInit)]; rfl
  · unfold gateway.LimiterStats
    rw [hgen reqs (gateway.NewLimiter fallbackInit)]
    rfl

end ZTGW
